import Mathlib

set_option autoImplicit false

/-!
Shallow embedding of the jef-wallets-backend ledger write/read path.

Embedded sources:
* `src/lambda-ledgers/jef-wallets-ledgers-create-one/code/code.py` (`create_one_ledger`)
* `src/lambda-transactions/jef-wallets-transactions-create-one/code/code.py` (`create_transaction`)
* `src/lambda-ledgers/jef-wallets-verify-sufficient-funds/code/code.py` (`verify_sufficient_funds`)
* `src/lambda-ledgers/jef-wallets-ledgers-get-all-by-account-number/code/code.py`
  (`build_double_entry_json`, pairing phase)

Python `decimal.Decimal` values are modelled exactly: finite decimals are
rationals, and the special values Infinity, -Infinity, NaN, sNaN are explicit,
because the repo code can produce and store them.  Under Python's default
decimal context `InvalidOperation` is trapped, so operations that signal it
(comparing against NaN, Infinity - Infinity, any sNaN operand) raise; this is
modelled with `Except String`.  DynamoDB tables are lists of typed rows looked
up by partition key, so pk collisions between ledger rows and `STATE#...` rows
are representable, exactly as in the one-table layout of the source.
-/

namespace JefWallets

/-- A single-quote character, used to build message strings verbatim. -/
def sq : String := String.singleton (Char.ofNat 39)

/-- Python `decimal.Decimal` values: finite decimals as exact rationals plus
the special values. -/
inductive Dec where
  | fin (q : ℚ)
  | posInf
  | negInf
  | nan
  | snan
deriving DecidableEq, Repr

/-- Message used for a raised `decimal.InvalidOperation` (abridged `str(e)`). -/
def invalidOpMsg : String := "InvalidOperation"

/-- Negation of a `Decimal`. -/
def Dec.neg : Dec → Dec
  | .fin q => .fin (-q)
  | .posInf => .negInf
  | .negInf => .posInf
  | .nan => .nan
  | .snan => .snan

/-- Decimal addition under the default context: sNaN operands and
`Infinity + (-Infinity)` signal `InvalidOperation` (trapped, hence raise);
quiet NaN propagates. -/
def Dec.add : Dec → Dec → Except String Dec
  | .snan, _ => .error invalidOpMsg
  | _, .snan => .error invalidOpMsg
  | .nan, _ => .ok .nan
  | _, .nan => .ok .nan
  | .fin a, .fin b => .ok (.fin (a + b))
  | .posInf, .negInf => .error invalidOpMsg
  | .negInf, .posInf => .error invalidOpMsg
  | .posInf, _ => .ok .posInf
  | _, .posInf => .ok .posInf
  | .negInf, _ => .ok .negInf
  | _, .negInf => .ok .negInf

/-- Decimal subtraction, `a - b = a + (-b)`. -/
def Dec.sub (a b : Dec) : Except String Dec := Dec.add a b.neg

/-- The Python comparison `d <= 0`: raises `InvalidOperation` on NaN operands. -/
def Dec.le0 : Dec → Except String Bool
  | .fin q => .ok (decide (q ≤ 0))
  | .posInf => .ok false
  | .negInf => .ok true
  | .nan => .error invalidOpMsg
  | .snan => .error invalidOpMsg

/-- The Python comparison `d < 0`: raises `InvalidOperation` on NaN operands. -/
def Dec.lt0 : Dec → Except String Bool
  | .fin q => .ok (decide (q < 0))
  | .posInf => .ok false
  | .negInf => .ok true
  | .nan => .error invalidOpMsg
  | .snan => .error invalidOpMsg

/-- The Python comparison `a >= b`: raises `InvalidOperation` on NaN operands. -/
def Dec.ge : Dec → Dec → Except String Bool
  | .nan, _ => .error invalidOpMsg
  | _, .nan => .error invalidOpMsg
  | .snan, _ => .error invalidOpMsg
  | _, .snan => .error invalidOpMsg
  | .fin a, .fin b => .ok (decide (b ≤ a))
  | .posInf, _ => .ok true
  | _, .posInf => .ok false
  | .negInf, .negInf => .ok true
  | .negInf, .fin _ => .ok false
  | .fin _, .negInf => .ok true

/-- Numeric value of a list of ASCII digits. -/
def digitsVal (cs : List Char) : ℕ :=
  cs.foldl (fun acc c => 10 * acc + (c.toNat - '0'.toNat)) 0

/-- Parse the part of a decimal literal before any exponent:
`digits`, `digits.digits`, `digits.` or `.digits` (ASCII digits). -/
def parseUnsigned (cs : List Char) : Option ℚ :=
  let ip := cs.takeWhile Char.isDigit
  let rest := cs.dropWhile Char.isDigit
  match rest with
  | [] => if ip.isEmpty then none else some (digitsVal ip)
  | '.' :: fp =>
      if fp.all Char.isDigit ∧ (ip ≠ [] ∨ fp ≠ []) then
        some ((digitsVal ip : ℚ) + (digitsVal fp : ℚ) / (10 : ℚ) ^ fp.length)
      else none
  | _ => none

/-- Parse an exponent: optional sign then a nonempty run of digits. -/
def parseExp (cs : List Char) : Option ℤ :=
  let (sgn, ds) : ℤ × List Char :=
    match cs with
    | '+' :: r => (1, r)
    | '-' :: r => (-1, r)
    | r => (1, r)
  if ds ≠ [] ∧ ds.all Char.isDigit then some (sgn * (digitsVal ds : ℤ)) else none

/-- Split a character list at the first `e`/`E`, returning the mantissa part
and, when present, the exponent part. -/
def splitAtExp : List Char → List Char × Option (List Char)
  | [] => ([], none)
  | c :: cs =>
      if c = 'e' ∨ c = 'E' then ([], some cs)
      else
        let (m, r) := splitAtExp cs
        (c :: m, r)

/-- Parse an unsigned numeric decimal literal with optional exponent. -/
def parseNumeric (cs : List Char) : Option ℚ :=
  let (m, eo) := splitAtExp cs
  match parseUnsigned m with
  | none => none
  | some q =>
      match eo with
      | none => some q
      | some ecs =>
          match parseExp ecs with
          | none => none
          | some e => some (q * (10 : ℚ) ^ e)

/-- Parse a string in the grammar accepted by `decimal.Decimal(str)`:
optional sign, then either a numeric literal, `inf`/`infinity`, or
`nan`/`snan` with an optional digit payload (all case-insensitive, ASCII
digits).  Returns `none` where the constructor would raise
`InvalidOperation`. -/
def parseDec (s : String) : Option Dec :=
  let cs := s.data
  let (neg, rest) : Bool × List Char :=
    match cs with
    | '+' :: r => (false, r)
    | '-' :: r => (true, r)
    | r => (false, r)
  let low := rest.map Char.toLower
  if low = "inf".data ∨ low = "infinity".data then
    some (if neg then .negInf else .posInf)
  else
    match low with
    | 'n' :: 'a' :: 'n' :: d => if d.all Char.isDigit then some .nan else none
    | 's' :: 'n' :: 'a' :: 'n' :: d => if d.all Char.isDigit then some .snan else none
    | _ =>
        match parseNumeric rest with
        | none => none
        | some q => some (.fin (if neg then -q else q))

/-- Dynamic (JSON-ish) payload values, mirroring the Python types the
handlers inspect: `None`, `bool`, `int`, `float`, `Decimal`, `str`, and a
catch-all for any other object.  A `float` is identified with the `Decimal`
reading of its `str()` form, which is how every embedded function consumes
it. -/
inductive Value where
  | vnull
  | vbool (b : Bool)
  | vint (n : ℤ)
  | vfloat (d : Dec)
  | vdec (d : Dec)
  | vstr (s : String)
  | vother
deriving DecidableEq, Repr

/-- Python `str.strip()` with no argument: drop leading and trailing
whitespace.  (Defined structurally over the character list so that concrete
runs reduce inside the kernel.) -/
def pyStrip (s : String) : String :=
  ⟨((s.data.dropWhile Char.isWhitespace).reverse.dropWhile Char.isWhitespace).reverse⟩

/-- Python `str.lower()` (ASCII case folding, structurally). -/
def pyLower (s : String) : String :=
  ⟨s.data.map Char.toLower⟩

/-- Replace non-overlapping occurrences of a (non-empty) pattern, left to
right, fuelled by the input length so that the recursion is structural. -/
def listReplaceGo (pat rep : List Char) : ℕ → List Char → List Char
  | 0, l => l
  | _ + 1, [] => []
  | fuel + 1, c :: cs =>
      if pat.isPrefixOf (c :: cs) then
        rep ++ listReplaceGo pat rep fuel ((c :: cs).drop pat.length)
      else c :: listReplaceGo pat rep fuel cs

/-- Python `str.replace` for a non-empty pattern. -/
def pyReplace (s pat rep : String) : String :=
  ⟨listReplaceGo pat.data rep.data s.data.length s.data⟩

/-- The `_as_str` helper shared by the handlers: strip a string, anything
else becomes `""`. -/
def asStr : Value → String
  | .vstr s => pyStrip s
  | _ => ""

/-- The timestamp-derived strings computed once per call by the writers;
taken as a parameter since the clock is external. -/
structure Meta where
  created_iso : String
  date_str : String
  date_name : String
  created_name : String
deriving DecidableEq, Repr

namespace Ledgers

/-! Embedding of `jef-wallets-ledgers-create-one/code/code.py`. -/

/-- The `_to_decimal` helper of the create-one handler: `None`, booleans and
unknown objects map to `None`; ints and floats go through `Decimal(str(v))`;
strings are stripped and parsed, with parse failures caught and mapped to
`None`. -/
def toDecimal : Value → Option Dec
  | .vnull => none
  | .vdec d => some d
  | .vbool _ => none
  | .vint n => some (.fin (n : ℚ))
  | .vfloat d => some d
  | .vstr s =>
      let t := pyStrip s
      if t = "" then none else parseDec t
  | .vother => none

/-- Validated `entry_type`. -/
inductive EntryType where
  | credit
  | debit
deriving DecidableEq, Repr

def EntryType.toStr : EntryType → String
  | .credit => "credit"
  | .debit => "debit"

/-- A committed ledger item, with every field of the `ledger_item` dict
(lines 156-176). -/
structure Entry where
  account_number : String
  sender_account_number : String
  sender_account_name : String
  receiver_account_number : String
  receiver_account_name : String
  ledger_id : String
  date : String
  date_name : String
  created : String
  created_name : String
  created_by : String
  typ : EntryType
  description : String
  balance_before : Dec
  amount : Dec
  balance_after : Dec
  gsi_1_sk : String
deriving DecidableEq, Repr

/-- The account `STATE#...` item kept in the same table (docstring of
`create_one_ledger`). -/
structure AccountState where
  account_number : String
  latest_balance : Dec
  version : ℕ
  updated : String
  updated_name : String
deriving DecidableEq, Repr

/-- Rows of the `jef-wallets-ledgers` table: ledger items keyed by
`ledger_id` and state items keyed by `STATE#<account_number>`. -/
inductive Row where
  | entry (e : Entry)
  | state (st : AccountState)
deriving DecidableEq, Repr

/-- Partition key of a state item. -/
def statePk (account_number : String) : String := "STATE#" ++ account_number

/-- Partition key of a row. -/
def Row.pk : Row → String
  | .entry e => e.ledger_id
  | .state st => statePk st.account_number

/-- The `version` attribute of a row, when present: only state items carry
one. -/
def Row.version? : Row → Option ℕ
  | .entry _ => none
  | .state st => some st.version

/-- The `latest_balance` attribute of a row, when present. -/
def Row.latestBalance? : Row → Option Dec
  | .entry _ => none
  | .state st => some st.latest_balance

/-- The ledgers table: a list of rows, newest appended last.  Reachable
tables have pairwise distinct partition keys. -/
abbrev Store := List Row

/-- `get_item` by partition key. -/
def rowAt (s : Store) (pk : String) : Option Row :=
  List.find? (fun r => r.pk == pk) s

/-- Reading the state snapshot (lines 128-142): presence flag,
`latest_balance or Decimal("0")`, and `version` defaulting to 0. -/
def snapInfo : Option Row → Bool × Dec × ℕ
  | none => (false, .fin 0, 0)
  | some r => (true, (r.latestBalance?).getD (.fin 0), (r.version?).getD 0)

/-- A validated request, as the local variables stand after lines 90-114. -/
structure VReq where
  account_number : String
  sender_account_number : String
  sender_account_name : String
  receiver_account_number : String
  receiver_account_name : String
  typ : EntryType
  description : String
  created_by : String
  ledger_id : String
  amount : Dec
deriving DecidableEq, Repr

/-- The `ledger_item` dict built at lines 156-176. -/
def mkEntry (r : VReq) (m : Meta) (bb ba : Dec) : Entry :=
  { account_number := r.account_number
    sender_account_number := r.sender_account_number
    sender_account_name := r.sender_account_name
    receiver_account_number := r.receiver_account_number
    receiver_account_name := r.receiver_account_name
    ledger_id := r.ledger_id
    date := m.date_str
    date_name := m.date_name
    created := m.created_iso
    created_name := m.created_name
    created_by := r.created_by
    typ := r.typ
    description := r.description
    balance_before := bb
    amount := r.amount
    balance_after := ba
    gsi_1_sk := m.created_iso ++ "#" ++ r.ledger_id }

/-- Balance computation at lines 144-149. -/
def applyAmount : EntryType → Dec → Dec → Except String Dec
  | .credit, b, a => b.add a
  | .debit, b, a => b.sub a

/-- Per-item cancellation reasons of a `TransactWriteItems` call. -/
inductive CancelReason where
  | noFailure
  | ccf
  | validationErr
deriving DecidableEq, Repr

def reasonOf (ok : Bool) : CancelReason := if ok then .noFailure else .ccf

/-- Outcome of one `transact_write_items` attempt. -/
inductive Attempt where
  | committed (s' : Store) (e : Entry)
  | canceled (reasons : List CancelReason)
  | multiOp
  | decErr
deriving DecidableEq, Repr

/-- The `SET` part of the conditional state update: replace the row at the
state pk by the bumped state.  Only invoked under the version condition, so
the row being replaced is a state item; ledger items are left untouched. -/
def bumpState (s : Store) (pk : String) (newBal : Dec) (newVer : ℕ) (m : Meta) : Store :=
  List.map
    (fun r =>
      match r with
      | .state st =>
          if Row.pk (.state st) == pk then
            .state { st with latest_balance := newBal, version := newVer,
                             updated := m.created_iso, updated_name := m.created_name }
          else .state st
      | .entry e => .entry e)
    s

/-- One execution of the body of the retry loop (lines 127-242): read the
snapshot (taken as a parameter, since a concurrent writer may commit between
the `get_item` and the `transact_write_items`), compute balances, and run
the two-item transaction against the current table `s`.  `multiOp` is the
`ValidationException` DynamoDB raises when both transact items target the
same key. -/
def attemptCommit (s : Store) (snap : Option Row) (r : VReq) (m : Meta) : Attempt :=
  let (stateExists, bal, ver) := snapInfo snap
  let bb := bal
  match applyAmount r.typ bb r.amount with
  | .error _ => .decErr
  | .ok ba =>
    let e := mkEntry r m bb ba
    let spk := statePk r.account_number
    if r.ledger_id = spk then .multiOp
    else if stateExists then
      -- conditional Update on the state row plus conditional Put of the entry
      let c1 : Bool :=
        match rowAt s spk with
        | some row => row.version? == some ver
        | none => false
      let c2 : Bool := (rowAt s r.ledger_id).isNone
      if c1 && c2 then
        .committed (bumpState s spk ba (ver + 1) m ++ [.entry e]) e
      else .canceled [reasonOf c1, reasonOf c2]
    else
      -- conditional Put of the fresh state row plus conditional Put of the entry
      let st : AccountState :=
        { account_number := r.account_number, latest_balance := ba, version := 1,
          updated := m.created_iso, updated_name := m.created_name }
      let c1 : Bool := (rowAt s spk).isNone
      let c2 : Bool := (rowAt s r.ledger_id).isNone
      if c1 && c2 then
        .committed (s ++ [.state st, .entry e]) e
      else .canceled [reasonOf c1, reasonOf c2]

/-- Response dict of `create_one_ledger`.  The code converts the success
balances through `float()` for JSON; the exact decimals are kept here. -/
structure Response where
  is_created : Bool
  message : String
  ledger_id : String
  balance_before? : Option Dec := none
  balance_after? : Option Dec := none
deriving DecidableEq, Repr

/-- Result of a full `create_one_ledger` run: the response, the table and
entry produced by a successful commit, the number of attempts executed, and
the backoff sleeps performed (in seconds). -/
structure RunOut where
  resp : Response
  committed : Option (Store × Entry)
  attempts : ℕ
  sleeps : List ℚ
deriving DecidableEq, Repr

/-- Message of the botocore `TransactionCanceledException` (model constant). -/
def canceledMsg : String :=
  "Transaction cancelled, please refer cancellation reasons for specific reasons"

/-- Message of the multi-operations-on-one-item `ValidationException`
(model constant). -/
def multiOpMsg : String :=
  "Transaction request cannot include multiple operations on one item"

/-- Exponential backoff before retry `a + 1`: `0.05 * 2 ** (a - 1)` seconds
(line 283). -/
def backoff (a : ℕ) : ℚ := (1 / 20) * 2 ^ (a - 1)

def hasReason (rs : List CancelReason) (c : CancelReason) : Bool :=
  rs.any (fun x => decide (x = c))

/-- The retry loop (lines 124-322).  `readV a` is the table at the instant
attempt `a` performs its consistent read; `commitV a` the table at the
instant its transaction executes.  The fuel argument equals
`max_attempts - attempt + 1`; the fuel-0 fallback is the post-loop return at
lines 318-322 (unreachable when started with fuel 5, since attempt 5 always
returns). -/
def loopGo (readV commitV : ℕ → Store) (r : VReq) (m : Meta) : ℕ → ℕ → RunOut
  | _, 0 =>
      ⟨⟨false, "Max retry attempts exceeded due to concurrent updates", r.ledger_id, none, none⟩,
        none, 0, []⟩
  | a, fuel + 1 =>
      match attemptCommit (commitV a) (rowAt (readV a) (statePk r.account_number)) r m with
      | .committed s' e =>
          ⟨⟨true, "Created", r.ledger_id, some e.balance_before, some e.balance_after⟩,
            some (s', e), 1, []⟩
      | .canceled rs =>
          if hasReason rs .validationErr then
            ⟨⟨false, "Validation error: " ++ canceledMsg, r.ledger_id, none, none⟩, none, 1, []⟩
          else if hasReason rs .ccf && decide (a < 5) then
            let rec' := loopGo readV commitV r m (a + 1) fuel
            ⟨rec'.resp, rec'.committed, rec'.attempts + 1, backoff a :: rec'.sleeps⟩
          else
            ⟨⟨false, "Transaction failed: " ++ canceledMsg, r.ledger_id, none, none⟩, none, 1, []⟩
      | .multiOp =>
          ⟨⟨false, "DynamoDB error: ValidationException: " ++ multiOpMsg, r.ledger_id, none, none⟩,
            none, 1, []⟩
      | .decErr =>
          ⟨⟨false, "Unexpected error: " ++ invalidOpMsg, r.ledger_id, none, none⟩, none, 1, []⟩

/-- Raw payload of `create_one_ledger`: `p.get(...)` yields `None` for a
missing key, so absent fields are `vnull`. -/
structure Payload where
  account_number : Value := .vnull
  sender_account_number : Value := .vnull
  sender_account_name : Value := .vnull
  receiver_account_number : Value := .vnull
  receiver_account_name : Value := .vnull
  type : Value := .vnull
  description : Value := .vnull
  created_by : Value := .vnull
  ledger_id : Value := .vnull
  amount : Value := .vnull
deriving DecidableEq, Repr

/-- A validation-failure result: the function returns before touching the
table. -/
def rejected (msg lid : String) : RunOut :=
  ⟨⟨false, msg, lid, none, none⟩, none, 0, []⟩

def msgBadType : String :=
  "type must be " ++ sq ++ "credit" ++ sq ++ " or " ++ sq ++ "debit" ++ sq

/-- The `typ not in ("credit", "debit")` test at line 105, as a partial
normalisation. -/
def typOf (ts : String) : Option EntryType :=
  if ts = "credit" then some .credit
  else if ts = "debit" then some .debit
  else none

/-- The `create_one_ledger` entry point (lines 72-322).  An `Except.error`
models an exception escaping the function: the only such spot is the
`amount <= 0` comparison at line 107, which raises `InvalidOperation` when
the parsed amount is a NaN, outside any `try`. -/
def create_one_ledger (readV commitV : ℕ → Store) (m : Meta) (p : Payload) :
    Except String RunOut := do
  let account_number := asStr p.account_number
  let sender0 := asStr p.sender_account_number
  let typS := pyLower (asStr p.type)
  let ledger_id := asStr p.ledger_id
  let amount? := toDecimal p.amount
  if account_number = "" then
    return rejected "account_number is required" ""
  if ledger_id = "" then
    return rejected "ledger_id is required" ""
  match typOf typS with
  | none => return rejected msgBadType ledger_id
  | some typ =>
    match amount? with
    | none => return rejected "amount must be a positive number" ledger_id
    | some amount =>
      let le0 ← amount.le0
      if le0 then
        return rejected "amount must be a positive number" ledger_id
      if sender0 ≠ "" ∧ sender0 ≠ account_number then
        return rejected "account_number must match sender_account_number" ledger_id
      let sender := if sender0 = "" then account_number else sender0
      let r : VReq :=
        { account_number := account_number
          sender_account_number := sender
          sender_account_name := asStr p.sender_account_name
          receiver_account_number := asStr p.receiver_account_number
          receiver_account_name := asStr p.receiver_account_name
          typ := typ
          description := asStr p.description
          created_by := asStr p.created_by
          ledger_id := ledger_id
          amount := amount }
      return loopGo readV commitV r m 1 5

/-- A run of `create_one_ledger` with no interference: every read and every
transaction sees the same table `s`. -/
def create_one_ledger_seq (s : Store) (m : Meta) (p : Payload) : Except String RunOut :=
  create_one_ledger (fun _ => s) (fun _ => s) m p

end Ledgers

namespace Transactions

/-! Embedding of `jef-wallets-transactions-create-one/code/code.py`. -/

/-- The `_to_dec` helper (lines 28-40): `Decimal` as is; ints — and booleans,
which Python treats as ints — via `Decimal(v)`; floats via `Decimal(str(v))`;
stripped strings parsed with the empty string mapping to 0 and a parse
failure raising `InvalidOperation` (there is no `try` here); anything else
is 0. -/
def toDec : Value → Except String Dec
  | .vdec d => .ok d
  | .vbool b => .ok (.fin (if b then 1 else 0))
  | .vint n => .ok (.fin (n : ℚ))
  | .vfloat d => .ok d
  | .vstr s =>
      let t := pyStrip s
      if t = "" then .ok (.fin 0)
      else
        match parseDec t with
        | some d => .ok d
        | none => .error invalidOpMsg
  | .vnull => .ok (.fin 0)
  | .vother => .ok (.fin 0)

/-- Normalisation performed by `uuid.UUID(hex)`: drop `urn:` and `uuid:`
fragments, strip surrounding braces, drop hyphens; the result must be 32 hex
digits (sign/underscore corner cases of `int(_, 16)` are not modelled). -/
def isHexChar (c : Char) : Bool :=
  c.isDigit ∨ ('a' ≤ c ∧ c ≤ 'f') ∨ ('A' ≤ c ∧ c ≤ 'F')

def uuidHexOk (s : String) : Bool :=
  let t := pyReplace (pyReplace s "urn:" "") "uuid:" ""
  let isBrace : Char → Bool := fun c => c = Char.ofNat 123 ∨ c = Char.ofNat 125
  let cs := (((t.data.dropWhile isBrace).reverse.dropWhile isBrace).reverse).filter
    (fun c => c ≠ '-')
  cs.length = 32 && cs.all isHexChar

/-- Raw payload of `create_transaction`: the validator distinguishes a
missing key from a present one, hence `Option Value` fields. -/
structure TxPayload where
  account_number : Option Value := none
  sender_account_number : Option Value := none
  sender_account_name : Option Value := none
  receiver_account_number : Option Value := none
  receiver_account_name : Option Value := none
  description : Option Value := none
  amount : Option Value := none
  transaction_id : Option Value := none
  created_by : Option Value := none
deriving DecidableEq, Repr

/-- The `required` field list in validation order (lines 68-78). -/
def requiredFields (p : TxPayload) : List (String × Option Value) :=
  [("account_number", p.account_number),
   ("sender_account_number", p.sender_account_number),
   ("sender_account_name", p.sender_account_name),
   ("receiver_account_number", p.receiver_account_number),
   ("receiver_account_name", p.receiver_account_name),
   ("description", p.description),
   ("amount", p.amount),
   ("transaction_id", p.transaction_id),
   ("created_by", p.created_by)]

/-- The required-field loop: first missing or (except for `amount`) empty
field produces a failure. -/
def checkRequired : List (String × Option Value) → Option String
  | [] => none
  | (k, none) :: _ => some ("missing field: " ++ k)
  | (k, some v) :: rest =>
      if k ≠ "amount" ∧ asStr v = "" then some ("empty field: " ++ k)
      else checkRequired rest

/-- `_validate_payload` (lines 67-95). -/
def validatePayload (p : TxPayload) : Except String (Bool × String) := do
  match checkRequired (requiredFields p) with
  | some msg => return (false, msg)
  | none =>
    let amt ← toDec ((p.amount).getD .vnull)
    let le0 ← amt.le0
    if le0 then
      return (false, "amount must be > 0")
    let tid := asStr ((p.transaction_id).getD .vnull)
    if uuidHexOk tid then return (true, "ok")
    else return (false, "transaction_id must be uuidv4 format")

/-- The single item written per transfer (lines 109-133): the partition key
is the `transaction_id` and the `type` field is the leg tag computed at
line 122. -/
structure TxItem where
  pk : String
  transaction_id : String
  account_number : String
  sender_account_number : String
  sender_account_name : String
  receiver_account_number : String
  receiver_account_name : String
  description : String
  amount : Dec
  created_by : String
  typ : String
  date : String
  date_name : String
  created : String
  created_name : String
  gsi_1_pk : String
  gsi_1_sk : String
  gsi_2_pk : String
  gsi_2_sk : String
deriving DecidableEq, Repr

/-- The `jef-wallets-transactions` table. -/
abbrev TxStore := List TxItem

def txRowAt (s : TxStore) (pk : String) : Option TxItem :=
  List.find? (fun it => it.pk == pk) s

/-- Response dict of `create_transaction`. -/
structure TxResp where
  is_created : Bool
  message : String
deriving DecidableEq, Repr

/-- Build the item dict from a payload (lines 109-133). -/
def mkTxItem (p : TxPayload) (m : Meta) (amt : Dec) : TxItem :=
  let g : Option Value → String := fun v => asStr (v.getD .vnull)
  { pk := g p.transaction_id
    transaction_id := g p.transaction_id
    account_number := g p.account_number
    sender_account_number := g p.sender_account_number
    sender_account_name := g p.sender_account_name
    receiver_account_number := g p.receiver_account_number
    receiver_account_name := g p.receiver_account_name
    description := g p.description
    amount := amt
    created_by := g p.created_by
    typ := if g p.account_number = g p.sender_account_number then "sender" else "receiver"
    date := m.date_str
    date_name := m.date_name
    created := m.created_iso
    created_name := m.created_name
    gsi_1_pk := g p.sender_account_number
    gsi_1_sk := m.created_iso
    gsi_2_pk := g p.receiver_account_number
    gsi_2_sk := m.created_iso }

/-- `create_transaction` (lines 100-147): validate, build the single item,
then one conditional `put_item` guarded by `attribute_not_exists(pk)`; on a
`ConditionalCheckFailedException` report the duplicate and leave the table
unchanged. -/
def create_transaction (s : TxStore) (m : Meta) (p : TxPayload) :
    Except String (TxResp × TxStore) := do
  let (ok, msg) ← validatePayload p
  if ¬ ok then
    return (⟨false, msg⟩, s)
  let amt ← toDec ((p.amount).getD .vnull)
  let item := mkTxItem p m amt
  if (txRowAt s item.pk).isSome then
    return (⟨false, "transaction_id already exists"⟩, s)
  else
    return (⟨true, "created"⟩, s ++ [item])

/-- Number of committed items for a `transaction_id`. -/
def countTx (s : TxStore) (tid : String) : ℕ :=
  (s.filter (fun it => it.transaction_id == tid)).length

end Transactions

namespace Recon

/-! Pairing phase of `build_double_entry_json` in
`jef-wallets-ledgers-get-all-by-account-number/code/code.py` (lines
192-198): rows are grouped by `transaction_id` into debit/credit slots, and
a row participates only when its `type` field is `"debit"` or `"credit"`. -/

/-- A fetched row, restricted to the two fields the grouping loop reads. -/
structure RItem where
  transaction_id : Value := .vnull
  type : Value := .vnull
deriving DecidableEq, Repr

/-- The `by_tx.setdefault(txid, {})[typ] = it` target: one slot per leg. -/
structure TxPair where
  debit? : Option RItem := none
  credit? : Option RItem := none
deriving DecidableEq, Repr

def setSlot (pr : TxPair) (typ : String) (it : RItem) : TxPair :=
  if typ = "debit" then { pr with debit? := some it } else { pr with credit? := some it }

def upsert : List (String × TxPair) → String → String → RItem → List (String × TxPair)
  | [], txid, typ, it => [(txid, setSlot {} typ it)]
  | (k, pr) :: rest, txid, typ, it =>
      if k = txid then (k, setSlot pr typ it) :: rest
      else (k, pr) :: upsert rest txid typ it

/-- One iteration of the grouping loop: skip rows with an empty
`transaction_id` or a `type` outside debit/credit. -/
def byTxStep (m : List (String × TxPair)) (it : RItem) : List (String × TxPair) :=
  let txid := asStr it.transaction_id
  let typ := asStr it.type
  if txid = "" ∨ (typ ≠ "debit" ∧ typ ≠ "credit") then m
  else upsert m txid typ it

/-- The grouping loop over all fetched rows. -/
def byTx (rows : List RItem) : List (String × TxPair) :=
  rows.foldl byTxStep []

end Recon

namespace Verify

/-! Embedding of `jef-wallets-verify-sufficient-funds/code/code.py`. -/

/-- Its `_to_decimal(x, default)` (lines 15-28): `None` gives the default;
`Decimal` passes through; ints and floats go through `Decimal(str(x))` — a
boolean is an int, so `Decimal("True")` raises `InvalidOperation` outside
any `try`; everything else is stringified and parsed with failures caught
and mapped to the default. -/
def toDecimal (x : Value) (dflt : Option Dec) : Except String (Option Dec) :=
  match x with
  | .vnull => .ok dflt
  | .vdec d => .ok (some d)
  | .vbool _ => .error invalidOpMsg
  | .vint n => .ok (some (.fin (n : ℚ)))
  | .vfloat d => .ok d
  | .vstr s =>
      let t := pyStrip s
      if t = "" then .ok dflt
      else
        match parseDec t with
        | some d => .ok (some d)
        | none => .ok dflt
  | .vother => .ok dflt

/-- Python `str()` as applied to the `entity_number` value; the `repr` of
`Decimal`/`float`/other objects is not numeric-faithful and is only a
placeholder, no theorem relies on those arms. -/
def pyStr : Value → String
  | .vstr s => s
  | .vint n => toString n
  | .vbool true => "True"
  | .vbool false => "False"
  | .vnull => "None"
  | .vdec _ => "Decimal"
  | .vfloat _ => "float"
  | .vother => "object"

/-- A queried ledger item, restricted to the fields the function reads;
`item.get` of a missing attribute is `vnull`. -/
structure VItem where
  balance_after : Value := .vnull
  balance_before : Value := .vnull
deriving DecidableEq, Repr

structure VPayload where
  entity_number : Option Value := none
  amount : Option Value := none
deriving DecidableEq, Repr

structure VResp where
  is_sufficient : Bool
  message : String
  entity_number : String
deriving DecidableEq, Repr

/-- `verify_sufficient_funds` (lines 31-81).  `q e` is the result of the
main-table query `pk = e` ordered descending by sort key (so the head is the
most recent item, `Limit=1` keeps at most one); it is a parameter of the
embedding. -/
def verify_sufficient_funds (q : String → List VItem) (p : VPayload) :
    Except String VResp := do
  let entity := pyStrip (pyStr ((p.entity_number).getD (.vstr "")))
  let amount? ← toDecimal ((p.amount).getD .vnull) none
  if entity = "" then
    return ⟨false, "Missing entity_number.", ""⟩
  match amount? with
  | none => return ⟨false, "Missing or invalid amount.", entity⟩
  | some amount =>
    let neg ← amount.lt0
    if neg then
      return ⟨false, "Amount must be non-negative.", entity⟩
    match q entity with
    | [] => return ⟨false, "No ledger entries found for this entity_number.", entity⟩
    | it :: _ =>
      let balA? ← toDecimal it.balance_after none
      let bal ←
        match balA? with
        | some b => pure b
        | none => do
            let b? ← toDecimal it.balance_before (some (.fin 0))
            pure (b?.getD (.fin 0))
      let suff ← bal.ge amount
      if suff then return ⟨true, "Sufficient funds.", entity⟩
      else return ⟨false, "Insufficient funds.", entity⟩

end Verify

namespace Ledgers

/-! Invariants of the ledgers table under interleaved writers.

A `Trace` records the successive tables produced by successful commits of
the write path: each step commits against the current table using a
snapshot read (with `ConsistentRead`) from the table as it stood at some
earlier point of the trace — this is exactly the read/commit split of the
retry loop, where other writers may commit between the `get_item` and the
`transact_write_items`.  Failed attempts leave the table unchanged and so
do not appear. -/

/-- Project a row to a ledger entry of account `a`. -/
def entryOf? (a : String) : Row → Option Entry
  | .entry e => if e.account_number = a then some e else none
  | .state _ => none

/-- The committed entries of account `a`, in commit order. -/
def entriesOf (s : Store) (a : String) : List Entry :=
  s.filterMap (entryOf? a)

/-- The balance chain: starting from `b`, each entry's `balance_before`
equals the running balance and hands `balance_after` to its successor. -/
def chainedFrom (b : Dec) : List Entry → Prop
  | [] => True
  | e :: rest => e.balance_before = b ∧ chainedFrom e.balance_after rest

/-- Balance after the last entry, starting from `b`. -/
def lastBal (b : Dec) (es : List Entry) : Dec :=
  match es.getLast? with
  | none => b
  | some e => e.balance_after

/-- Partition keys are pairwise distinct (DynamoDB key uniqueness). -/
def pkUnique (s : Store) : Prop := (s.map Row.pk).Nodup

/-- Per-account invariant: entries chain from 0; a state row at
`STATE#<a>` carries the account, a version equal to the number of committed
entries, and the last entry's `balance_after`; a poisoned row (a ledger
item whose `ledger_id` collides with the state pk) or no row at all can
only occur while the account has no entries. -/
def AccInv (s : Store) (a : String) : Prop :=
  chainedFrom (.fin 0) (entriesOf s a) ∧
  (match rowAt s (statePk a) with
   | some (.state st) =>
       st.account_number = a ∧ entriesOf s a ≠ [] ∧
       st.version = (entriesOf s a).length ∧
       st.latest_balance = lastBal (.fin 0) (entriesOf s a)
   | some (.entry _) => entriesOf s a = []
   | none => entriesOf s a = [])

def Inv (s : Store) : Prop := pkUnique s ∧ ∀ a, AccInv s a

/-- The version fence of account `a` (0 when no state row exists). -/
def verOf (s : Store) (a : String) : ℕ :=
  match rowAt s (statePk a) with
  | some (.state st) => st.version
  | _ => 0

/-- Across a set of tables, a state row's version determines its balance. -/
def Coh (l : List Store) : Prop :=
  ∀ t1, t1 ∈ l → ∀ t2, t2 ∈ l → ∀ a st1 st2,
    rowAt t1 (statePk a) = some (.state st1) →
    rowAt t2 (statePk a) = some (.state st2) →
    st1.version = st2.version → st1.latest_balance = st2.latest_balance

/-- Tables reachable by interleaved successful commits, newest first.  The
snapshot of a step is read from any table of the history (stale reads
included); the commit itself runs against the newest table. -/
inductive Trace : List Store → Prop
  | init : Trace [([] : Store)]
  | step {t : Store} {tr : List Store} {src : Store} {r : VReq} {m : Meta}
      {s' : Store} {e : Entry} :
      Trace (t :: tr) → src ∈ t :: tr →
      attemptCommit t (rowAt src (statePk r.account_number)) r m = .committed s' e →
      Trace (s' :: t :: tr)

lemma statePk_inj {a b : String} (h : statePk a = statePk b) : a = b := by
  have hd : ("STATE#" ++ a).data = ("STATE#" ++ b).data := by
    simpa [statePk] using congrArg String.data h
  simp only [String.data_append] at hd
  exact String.ext (List.append_cancel_left hd)

lemma find?_map_pres {α : Type _} (f : α → α) (p : α → Bool)
    (h : ∀ x, p (f x) = p x) (l : List α) :
    (l.map f).find? p = (l.find? p).map f := by
  induction l with
  | nil => rfl
  | cons x xs ih =>
      by_cases hp : p x = true
      · simp [List.find?, h, hp]
      · simp only [Bool.not_eq_true] at hp
        simp [List.find?, h, hp, ih]

lemma rowAt_append (s l : Store) (q : String) :
    rowAt (s ++ l) q = ((rowAt s q).or (rowAt l q)) := by
  simp [rowAt, List.find?_append]

/-- The bump function applied pointwise by `bumpState`. -/
def bumpFn (pk : String) (newBal : Dec) (newVer : ℕ) (m : Meta) : Row → Row :=
  fun r =>
    match r with
    | .state st =>
        if Row.pk (.state st) == pk then
          .state { st with latest_balance := newBal, version := newVer,
                           updated := m.created_iso, updated_name := m.created_name }
        else .state st
    | .entry e => .entry e

lemma bumpState_eq_map (s : Store) (pk : String) (b : Dec) (v : ℕ) (m : Meta) :
    bumpState s pk b v m = s.map (bumpFn pk b v m) := rfl

lemma bumpFn_pk (pk : String) (b : Dec) (v : ℕ) (m : Meta) (r : Row) :
    (bumpFn pk b v m r).pk = r.pk := by
  cases r with
  | entry e => rfl
  | state st =>
      simp only [bumpFn]
      split <;> simp [Row.pk]

lemma rowAt_bumpState (s : Store) (pk : String) (b : Dec) (v : ℕ) (m : Meta) (q : String) :
    rowAt (bumpState s pk b v m) q = (rowAt s q).map (bumpFn pk b v m) := by
  rw [bumpState_eq_map]
  exact find?_map_pres _ _ (fun r => by rw [bumpFn_pk]) s

lemma bumpFn_ne (pk : String) (b : Dec) (v : ℕ) (m : Meta) {r : Row} (h : r.pk ≠ pk) :
    bumpFn pk b v m r = r := by
  cases r with
  | entry e => rfl
  | state st =>
      simp only [bumpFn]
      rw [if_neg]
      simpa using h

lemma entriesOf_bumpState (s : Store) (pk : String) (b : Dec) (v : ℕ) (m : Meta) (a : String) :
    entriesOf (bumpState s pk b v m) a = entriesOf s a := by
  rw [bumpState_eq_map]
  unfold entriesOf
  rw [List.filterMap_map]
  congr 1
  funext r
  cases r with
  | entry e => rfl
  | state st =>
      simp only [Function.comp, bumpFn]
      split <;> rfl

lemma map_pk_bumpState (s : Store) (pk : String) (b : Dec) (v : ℕ) (m : Meta) :
    (bumpState s pk b v m).map Row.pk = s.map Row.pk := by
  rw [bumpState_eq_map, List.map_map]
  congr 1
  funext r
  exact bumpFn_pk pk b v m r

lemma entriesOf_append (s l : Store) (a : String) :
    entriesOf (s ++ l) a = entriesOf s a ++ entriesOf l a := by
  simp [entriesOf]

lemma rowAt_eq_none_iff (s : Store) (q : String) :
    rowAt s q = none ↔ ∀ r ∈ s, r.pk ≠ q := by
  simp [rowAt, List.find?_eq_none]

lemma rowAt_mem_pk {s : Store} {q : String} {r : Row} (h : rowAt s q = some r) :
    r.pk = q := by
  have := List.find?_some h
  simpa using this

lemma chainedFrom_snoc {b : Dec} {es : List Entry} {e : Entry}
    (h : chainedFrom b es) (hbb : e.balance_before = lastBal b es) :
    chainedFrom b (es ++ [e]) := by
  induction es generalizing b with
  | nil =>
      simpa [chainedFrom, lastBal] using hbb
  | cons x xs ih =>
      obtain ⟨hx, hxs⟩ := h
      refine ⟨hx, ih hxs ?_⟩
      rw [hbb]
      cases xs with
      | nil => simp [lastBal, chainedFrom]
      | cons y ys =>
          obtain ⟨l, hl⟩ : ∃ l, (y :: ys).getLast? = some l := by
            cases h : (y :: ys).getLast? with
            | none => simp at h
            | some l => exact ⟨l, rfl⟩
          simp [lastBal, List.getLast?_cons_cons, hl]

lemma lastBal_snoc (b : Dec) (es : List Entry) (e : Entry) :
    lastBal b (es ++ [e]) = e.balance_after := by
  simp [lastBal, List.getLast?_concat]

lemma chainedFrom_pairwise {b : Dec} {es : List Entry} (h : chainedFrom b es) :
    ∀ k (hk : k + 1 < es.length),
      (es.get ⟨k, Nat.lt_of_succ_lt hk⟩).balance_after
        = (es.get ⟨k + 1, hk⟩).balance_before := by
  induction es generalizing b with
  | nil => intro k hk; simp at hk
  | cons x xs ih =>
      intro k hk
      obtain ⟨hx, hxs⟩ := h
      cases k with
      | zero =>
          cases xs with
          | nil => simp at hk
          | cons y ys =>
              obtain ⟨hy, _⟩ := hxs
              simpa [List.get] using hy.symm
      | succ n =>
          have hk' : n + 1 < xs.length := by simpa using hk
          simpa [List.get] using ih hxs n hk'

lemma rowAt_singleton (r : Row) (q : String) :
    rowAt [r] q = if r.pk = q then some r else none := by
  simp [rowAt, List.find?]
  split <;> simp_all

lemma rowAt_pair (r1 r2 : Row) (q : String) :
    rowAt [r1, r2] q =
      if r1.pk = q then some r1 else if r2.pk = q then some r2 else none := by
  by_cases h1 : r1.pk = q
  · simp [rowAt, List.find?, h1]
  · have hb1 : (r1.pk == q) = false := by simpa using h1
    by_cases h2 : r2.pk = q
    · have hb2 : (r2.pk == q) = true := by simpa using h2
      simp [rowAt, List.find?, hb1, hb2, h1, h2]
    · have hb2 : (r2.pk == q) = false := by simpa using h2
      simp [rowAt, List.find?, hb1, hb2, h1, h2]

lemma entriesOf_state_singleton (st : AccountState) (a : String) :
    entriesOf [.state st] a = [] := rfl

lemma entriesOf_entry_singleton (e : Entry) (a : String) :
    entriesOf [.entry e] a = if e.account_number = a then [e] else [] := by
  by_cases h : e.account_number = a <;> simp [entriesOf, entryOf?, h]

lemma entriesOf_pair_state_entry (st : AccountState) (e : Entry) (a : String) :
    entriesOf [.state st, .entry e] a = if e.account_number = a then [e] else [] := by
  by_cases h : e.account_number = a <;> simp [entriesOf, entryOf?, h]

lemma verOf_eq_of_rowAt_state {s : Store} {a : String} {st : AccountState}
    (h : rowAt s (statePk a) = some (.state st)) : verOf s a = st.version := by
  simp [verOf, h]

lemma verOf_eq_zero_of_none {s : Store} {a : String}
    (h : rowAt s (statePk a) = none) : verOf s a = 0 := by
  simp [verOf, h]

lemma verOf_eq_zero_of_entry {s : Store} {a : String} {e : Entry}
    (h : rowAt s (statePk a) = some (.entry e)) : verOf s a = 0 := by
  simp [verOf, h]

lemma not_mem_pk_of_rowAt_none {s : Store} {q : String} (h : rowAt s q = none) :
    q ∉ s.map Row.pk := by
  rw [rowAt_eq_none_iff] at h
  intro hmem
  obtain ⟨r, hr, hpk⟩ := List.mem_map.1 hmem
  exact h r hr hpk

/-- What one successful commit for account `A` guarantees: the invariant is
preserved, exactly one entry is appended for `A` (and no other account is
touched), the version fence advances by exactly one, and the new state row
carries the new entry's `balance_after`. -/
def StepFacts (t s' : Store) (A : String) (e : Entry) : Prop :=
  Inv s'
  ∧ entriesOf s' A = entriesOf t A ++ [e]
  ∧ (∀ b, b ≠ A → entriesOf s' b = entriesOf t b)
  ∧ verOf s' A = verOf t A + 1
  ∧ (∀ b, b ≠ A → verOf s' b = verOf t b)
  ∧ e.account_number = A
  ∧ e.balance_before = (match rowAt t (statePk A) with
      | some (.state st) => st.latest_balance
      | _ => Dec.fin 0)
  ∧ (∀ b st', rowAt s' (statePk b) = some (.state st') →
      rowAt t (statePk b) = some (.state st')
      ∨ (b = A ∧ st'.version = verOf t A + 1 ∧ st'.latest_balance = e.balance_after))

lemma step_facts_new {t : Store} {r : VReq} {m : Meta} {ba : Dec}
    (hInvt : Inv t)
    (hrow : rowAt t (statePk r.account_number) = none)
    (hlid : rowAt t r.ledger_id = none)
    (hne : r.ledger_id ≠ statePk r.account_number) :
    StepFacts t
      (t ++ [.state ⟨r.account_number, ba, 1, m.created_iso, m.created_name⟩,
             .entry (mkEntry r m (.fin 0) ba)])
      r.account_number (mkEntry r m (.fin 0) ba) := by
  set A := r.account_number with hA
  set spk := statePk A with hspk
  set e := mkEntry r m (.fin 0) ba with he
  set stN : AccountState := ⟨A, ba, 1, m.created_iso, m.created_name⟩ with hstN
  set s' : Store := t ++ [.state stN, .entry e] with hs'
  have heacc : e.account_number = A := rfl
  have helid : (Row.entry e).pk = r.ledger_id := rfl
  have hstpk : (Row.state stN).pk = spk := rfl
  have htA : entriesOf t A = [] := by
    have hAcc := hInvt.2 A
    rw [AccInv] at hAcc
    simpa [hrow] using hAcc.2
  have hpair : ∀ q, rowAt [Row.state stN, Row.entry e] q =
      if spk = q then some (.state stN) else if r.ledger_id = q then some (.entry e) else none := by
    intro q
    rw [rowAt_pair, hstpk, helid]
  have hs'at : ∀ q, rowAt s' q = (rowAt t q).or
      (if spk = q then some (.state stN) else if r.ledger_id = q then some (.entry e) else none) := by
    intro q
    rw [hs', rowAt_append, hpair]
  have hs'A : rowAt s' spk = some (.state stN) := by
    rw [hs'at, hrow]
    simp
  have hesA : entriesOf s' A = entriesOf t A ++ [e] := by
    rw [hs', entriesOf_append, entriesOf_pair_state_entry]
    simp [heacc]
  have hesB : ∀ b, b ≠ A → entriesOf s' b = entriesOf t b := by
    intro b hb
    rw [hs', entriesOf_append, entriesOf_pair_state_entry]
    have hd : e.account_number ≠ b := by
      rw [heacc]
      exact fun h => hb h.symm
    simp [hd]
  have hverA : verOf s' A = verOf t A + 1 := by
    rw [verOf_eq_of_rowAt_state hs'A, verOf_eq_zero_of_none hrow]
  have hrowB : ∀ b, b ≠ A → rowAt s' (statePk b) = rowAt t (statePk b)
      ∨ (rowAt t (statePk b) = none ∧ rowAt s' (statePk b) = some (.entry e)) := by
    intro b hb
    have hne2 : spk ≠ statePk b := fun h => hb (statePk_inj h).symm
    rw [hs'at]
    cases hq : rowAt t (statePk b) with
    | some rr => left; simp
    | none =>
        by_cases hl : r.ledger_id = statePk b
        · right
          constructor
          · rfl
          · simp [hne2, hl]
        · left
          simp [hne2, hl]
  have hverB : ∀ b, b ≠ A → verOf s' b = verOf t b := by
    intro b hb
    rcases hrowB b hb with h | ⟨h1, h2⟩
    · simp [verOf, h]
    · rw [verOf_eq_zero_of_entry h2, verOf_eq_zero_of_none h1]
  refine ⟨⟨?_, ?_⟩, hesA, hesB, hverA, hverB, heacc, ?_, ?_⟩
  · -- pkUnique
    have hmap : s'.map Row.pk = t.map Row.pk ++ [spk, r.ledger_id] := by
      rw [hs']
      simp [hstpk, helid]
    rw [pkUnique, hmap, List.nodup_append]
    refine ⟨hInvt.1, ?_, ?_⟩
    · simp [List.nodup_cons]
      exact fun h => hne h.symm
    · intro x hx
      simp only [List.mem_cons, List.mem_singleton, List.not_mem_nil]
      rintro (rfl | rfl | h)
      · exact not_mem_pk_of_rowAt_none hrow hx
      · exact not_mem_pk_of_rowAt_none hlid hx
      · exact h
  · -- AccInv for every account
    intro a
    by_cases ha : a = A
    · subst ha
      rw [AccInv, hs'A, hesA, htA]
      refine ⟨⟨rfl, trivial⟩, rfl, by simp, rfl, ?_⟩
      simp [lastBal]
      rfl
    · have hes := hesB a ha
      have hAcc := hInvt.2 a
      rw [AccInv] at hAcc ⊢
      rw [hes]
      refine ⟨hAcc.1, ?_⟩
      rcases hrowB a ha with h | ⟨h1, h2⟩
      · rw [h]
        exact hAcc.2
      · rw [h2]
        rw [h1] at hAcc
        exact hAcc.2
  · -- balance_before
    rw [hrow]
    rfl
  · -- new state rows
    intro b st' hb
    by_cases hba : b = A
    · subst hba
      right
      rw [hs'A] at hb
      injection hb with hb
      injection hb with hb
      refine ⟨rfl, ?_, ?_⟩
      · rw [← hb, verOf_eq_zero_of_none hrow]
      · rw [← hb]
        rfl
    · rcases hrowB b hba with h | ⟨_, h2⟩
      · left
        rw [← h, hb]
      · rw [h2] at hb
        exact absurd hb (by simp)

lemma step_facts_exists {t : Store} {r : VReq} {m : Meta} {st : AccountState} {ba : Dec}
    (hInvt : Inv t)
    (hrow : rowAt t (statePk r.account_number) = some (.state st))
    (hlid : rowAt t r.ledger_id = none)
    (_hne : r.ledger_id ≠ statePk r.account_number) :
    StepFacts t
      (bumpState t (statePk r.account_number) ba (st.version + 1) m
        ++ [.entry (mkEntry r m st.latest_balance ba)])
      r.account_number (mkEntry r m st.latest_balance ba) := by
  set A := r.account_number with hA
  set spk := statePk A with hspk
  set e := mkEntry r m st.latest_balance ba with he
  set st' : AccountState :=
    { st with latest_balance := ba, version := st.version + 1,
              updated := m.created_iso, updated_name := m.created_name } with hst'
  set s' : Store := bumpState t spk ba (st.version + 1) m ++ [.entry e] with hs'
  have heacc : e.account_number = A := rfl
  have helid : (Row.entry e).pk = r.ledger_id := rfl
  obtain ⟨hchain, hstacc, hneE, hlen, hbal⟩ :
      chainedFrom (.fin 0) (entriesOf t A) ∧ st.account_number = A ∧
        entriesOf t A ≠ [] ∧ st.version = (entriesOf t A).length ∧
        st.latest_balance = lastBal (.fin 0) (entriesOf t A) := by
    have hAcc := hInvt.2 A
    rw [AccInv] at hAcc
    rw [hrow] at hAcc
    exact ⟨hAcc.1, hAcc.2.1, hAcc.2.2.1, hAcc.2.2.2.1, hAcc.2.2.2.2⟩
  have hbumpSt : bumpFn spk ba (st.version + 1) m (.state st) = .state st' := by
    have hc : (Row.pk (Row.state st) == spk) = true := by
      simp [Row.pk, hstacc]
    simp only [bumpFn, hc, if_true]
  have hb_self : rowAt (bumpState t spk ba (st.version + 1) m) spk = some (.state st') := by
    rw [rowAt_bumpState, hrow, Option.map_some', hbumpSt]
  have hb_other : ∀ q, q ≠ spk → rowAt (bumpState t spk ba (st.version + 1) m) q = rowAt t q := by
    intro q hq
    rw [rowAt_bumpState]
    cases hrq : rowAt t q with
    | none => rfl
    | some rr =>
        rw [Option.map_some', bumpFn_ne]
        rw [rowAt_mem_pk hrq]
        exact hq
  have hs'at : ∀ q, rowAt s' q = (rowAt (bumpState t spk ba (st.version + 1) m) q).or
      (if r.ledger_id = q then some (.entry e) else none) := by
    intro q
    rw [hs', rowAt_append, rowAt_singleton, helid]
  have hs'A : rowAt s' spk = some (.state st') := by
    rw [hs'at, hb_self]
    rfl
  have hesA : entriesOf s' A = entriesOf t A ++ [e] := by
    rw [hs', entriesOf_append, entriesOf_bumpState, entriesOf_entry_singleton]
    simp [heacc]
  have hesB : ∀ b, b ≠ A → entriesOf s' b = entriesOf t b := by
    intro b hb
    rw [hs', entriesOf_append, entriesOf_bumpState, entriesOf_entry_singleton]
    have hd : e.account_number ≠ b := by
      rw [heacc]
      exact fun h => hb h.symm
    simp [hd]
  have hverA : verOf s' A = verOf t A + 1 := by
    rw [verOf_eq_of_rowAt_state hs'A, verOf_eq_of_rowAt_state hrow]
  have hrowB : ∀ b, b ≠ A → rowAt s' (statePk b) = rowAt t (statePk b)
      ∨ (rowAt t (statePk b) = none ∧ rowAt s' (statePk b) = some (.entry e)) := by
    intro b hb
    have hne2 : statePk b ≠ spk := fun h => hb (statePk_inj h)
    rw [hs'at, hb_other _ hne2]
    cases hq : rowAt t (statePk b) with
    | some rr => left; simp
    | none =>
        by_cases hl : r.ledger_id = statePk b
        · right
          exact ⟨rfl, by simp [hl]⟩
        · left
          simp [hl]
  have hverB : ∀ b, b ≠ A → verOf s' b = verOf t b := by
    intro b hb
    rcases hrowB b hb with h | ⟨h1, h2⟩
    · simp [verOf, h]
    · rw [verOf_eq_zero_of_entry h2, verOf_eq_zero_of_none h1]
  refine ⟨⟨?_, ?_⟩, hesA, hesB, hverA, hverB, heacc, ?_, ?_⟩
  · -- pkUnique
    have hmap : s'.map Row.pk = t.map Row.pk ++ [r.ledger_id] := by
      rw [hs']
      simp only [List.map_append, map_pk_bumpState]
      simp [helid]
    rw [pkUnique, hmap, List.nodup_append]
    refine ⟨hInvt.1, by simp, ?_⟩
    intro x hx
    simp only [List.mem_singleton]
    rintro rfl
    exact not_mem_pk_of_rowAt_none hlid hx
  · -- AccInv for every account
    intro a
    by_cases ha : a = A
    · subst ha
      rw [AccInv, hs'A, hesA]
      refine ⟨chainedFrom_snoc hchain ?_, hstacc, by simp, ?_, ?_⟩
      · exact hbal
      · simp [hst', hlen]
      · rw [lastBal_snoc]
        rfl
    · have hes := hesB a ha
      have hAcc := hInvt.2 a
      rw [AccInv] at hAcc ⊢
      rw [hes]
      refine ⟨hAcc.1, ?_⟩
      rcases hrowB a ha with h | ⟨h1, h2⟩
      · rw [h]
        exact hAcc.2
      · rw [h2]
        rw [h1] at hAcc
        exact hAcc.2
  · -- balance_before
    rw [hrow]
    rfl
  · -- new state rows
    intro b st'' hb
    by_cases hba : b = A
    · subst hba
      right
      rw [hs'A] at hb
      injection hb with hb
      injection hb with hb
      refine ⟨rfl, ?_, ?_⟩
      · rw [← hb, verOf_eq_of_rowAt_state hrow]
      · rw [← hb]
        rfl
    · rcases hrowB b hba with h | ⟨_, h2⟩
      · left
        rw [← h, hb]
      · rw [h2] at hb
        exact absurd hb (by simp)

lemma commit_step {t src : Store} {r : VReq} {m : Meta} {s' : Store} {e : Entry}
    (hInvt : Inv t)
    (hcoh : ∀ a st1 st2, rowAt src (statePk a) = some (.state st1) →
        rowAt t (statePk a) = some (.state st2) →
        st1.version = st2.version → st1.latest_balance = st2.latest_balance)
    (hc : attemptCommit t (rowAt src (statePk r.account_number)) r m = .committed s' e) :
    StepFacts t s' r.account_number e := by
  cases hsnap : rowAt src (statePk r.account_number) with
  | none =>
      rw [hsnap] at hc
      simp only [attemptCommit, snapInfo] at hc
      split at hc
      · simp at hc
      · split at hc
        · simp at hc
        · rw [if_neg Bool.false_eq_true_eq_False] at hc
          split at hc
          · rename_i hba hne hcc
            obtain ⟨h1, h2⟩ : rowAt t (statePk r.account_number) = none ∧
                rowAt t r.ledger_id = none := by
              simpa [Option.isNone_iff_eq_none] using hcc
            obtain ⟨rfl, rfl⟩ : s' = _ ∧ e = _ := by
              injection hc with hx hy
              exact ⟨hx.symm, hy.symm⟩
            exact step_facts_new hInvt h1 h2 hne
          · simp at hc
  | some row =>
      cases row with
      | entry e0 =>
          rw [hsnap] at hc
          simp only [attemptCommit, snapInfo, Row.latestBalance?, Row.version?,
            Option.getD] at hc
          split at hc
          · simp at hc
          · split at hc
            · simp at hc
            · rw [if_pos trivial] at hc
              split at hc
              · rename_i hba hne hcc
                exfalso
                rw [Bool.and_eq_true] at hcc
                obtain ⟨hc1, _⟩ := hcc
                cases hrt : rowAt t (statePk r.account_number) with
                | none => rw [hrt] at hc1; simp at hc1
                | some rr =>
                    rw [hrt] at hc1
                    cases rr with
                    | entry e1 => simp [Row.version?] at hc1
                    | state stt =>
                        simp only [Row.version?, beq_iff_eq, Option.some.injEq] at hc1
                        have hAcc := hInvt.2 r.account_number
                        rw [AccInv, hrt] at hAcc
                        obtain ⟨-, -, hneE, hlen, -⟩ := hAcc
                        rw [hc1] at hlen
                        exact hneE (List.length_eq_zero.1 hlen.symm)
              · simp at hc
      | state stS =>
          rw [hsnap] at hc
          simp only [attemptCommit, snapInfo, Row.latestBalance?, Row.version?,
            Option.getD] at hc
          split at hc
          · simp at hc
          · split at hc
            · simp at hc
            · rw [if_pos trivial] at hc
              split at hc
              · rename_i hba hne hcc
                rw [Bool.and_eq_true] at hcc
                obtain ⟨hc1, hc2⟩ := hcc
                have h2 : rowAt t r.ledger_id = none := by
                  simpa [Option.isNone_iff_eq_none] using hc2
                cases hrt : rowAt t (statePk r.account_number) with
                | none => rw [hrt] at hc1; simp at hc1
                | some rr =>
                    rw [hrt] at hc1
                    cases rr with
                    | entry e1 => simp [Row.version?] at hc1
                    | state stt =>
                        simp only [Row.version?, beq_iff_eq, Option.some.injEq] at hc1
                        have hbal_eq : stS.latest_balance = stt.latest_balance :=
                          hcoh r.account_number stS stt hsnap hrt hc1.symm
                        rw [← hc1, hbal_eq] at hc
                        obtain ⟨rfl, rfl⟩ : s' = _ ∧ e = _ := by
                          injection hc with hx hy
                          exact ⟨hx.symm, hy.symm⟩
                        exact step_facts_exists hInvt hrt h2 hne
              · simp at hc

/-- The global invariants a trace maintains: every reachable table satisfies
`Inv`, versions only grow along the trace, and a version value determines
the balance recorded with it. -/
def TraceOK (l : List Store) : Prop :=
  (∀ s, s ∈ l → Inv s) ∧
  (∀ c, l.head? = some c → ∀ s, s ∈ l → ∀ a, verOf s a ≤ verOf c a) ∧
  Coh l

theorem trace_ok {l : List Store} (h : Trace l) : TraceOK l := by
  induction h with
  | init =>
      refine ⟨?_, ?_, ?_⟩
      · intro s hs
        rw [List.mem_singleton] at hs
        subst hs
        refine ⟨by simp [pkUnique], ?_⟩
        intro a
        rw [AccInv]
        simp [rowAt, entriesOf, chainedFrom, List.find?]
      · intro c hc s hs a
        rw [List.head?_cons, Option.some.injEq] at hc
        rw [List.mem_singleton] at hs
        subst hc; subst hs
        exact le_refl _
      · intro t1 h1 t2 h2 a st1 st2 hr1 hr2 hv
        rw [List.mem_singleton] at h1
        subst h1
        simp [rowAt, List.find?] at hr1
  | @step t tr src r m s' e h hsrc hcomm ih =>
      obtain ⟨ihInv, ihMono, ihCoh⟩ := ih
      have hInvt : Inv t := ihInv t (by simp)
      have hcoh_src_t : ∀ a st1 st2, rowAt src (statePk a) = some (.state st1) →
          rowAt t (statePk a) = some (.state st2) →
          st1.version = st2.version → st1.latest_balance = st2.latest_balance := by
        intro a st1 st2 h1 h2 hv
        exact ihCoh src hsrc t (by simp) a st1 st2 h1 h2 hv
      obtain ⟨hInv', hesA, hesB, hverA, hverB, heA, hbb, hstate⟩ :=
        commit_step hInvt hcoh_src_t hcomm
      have hmono_step : ∀ a, verOf t a ≤ verOf s' a := by
        intro a
        by_cases ha : a = r.account_number
        · subst ha
          rw [hverA]
          exact Nat.le_succ _
        · rw [hverB a ha]
      have hmono_all : ∀ s, s ∈ s' :: t :: tr → ∀ a, verOf s a ≤ verOf s' a := by
        intro s hs a
        rcases List.mem_cons.1 hs with rfl | hs'
        · exact le_refl _
        · exact le_trans (ihMono t rfl s hs' a) (hmono_step a)
      refine ⟨?_, ?_, ?_⟩
      · intro s hs
        rcases List.mem_cons.1 hs with rfl | hs'
        · exact hInv'
        · exact ihInv s hs'
      · intro c hc s hs a
        rw [List.head?_cons, Option.some.injEq] at hc
        subst hc
        exact hmono_all s hs a
      · intro t1 h1 t2 h2 a st1 st2 hr1 hr2 hv
        rcases List.mem_cons.1 h1 with rfl | h1'
        · rcases List.mem_cons.1 h2 with rfl | h2'
          · rw [hr1] at hr2
            injection hr2 with hr2
            injection hr2 with hr2
            rw [hr2]
          · rcases hstate a st1 hr1 with hl | ⟨haA, hv1, _⟩
            · exact ihCoh t (by simp) t2 h2' a st1 st2 hl hr2 hv
            · exfalso
              have hle : verOf t2 a ≤ verOf t a := ihMono t rfl t2 h2' a
              rw [verOf_eq_of_rowAt_state hr2] at hle
              subst haA
              rw [← hv, hv1] at hle
              omega
        · rcases List.mem_cons.1 h2 with rfl | h2'
          · rcases hstate a st2 hr2 with hl | ⟨haA, hv2, _⟩
            · exact ihCoh t1 h1' t (by simp) a st1 st2 hr1 hl hv
            · exfalso
              have hle : verOf t1 a ≤ verOf t a := ihMono t rfl t1 h1' a
              rw [verOf_eq_of_rowAt_state hr1] at hle
              subst haA
              rw [hv, hv2] at hle
              omega
          · exact ihCoh t1 h1' t2 h2' a st1 st2 hr1 hr2 hv

/-- The conditions under which `create_one_ledger` reaches the retry loop
(lines 101-114 all pass). -/
def PassesValidation (p : Payload) : Prop :=
  asStr p.account_number ≠ "" ∧
  asStr p.ledger_id ≠ "" ∧
  (pyLower (asStr p.type) = "credit" ∨ pyLower (asStr p.type) = "debit") ∧
  (∃ d, toDecimal p.amount = some d ∧ d.le0 = .ok false) ∧
  (asStr p.sender_account_number = "" ∨
    asStr p.sender_account_number = asStr p.account_number)

/-- The request record a passing payload is normalised to. -/
def reqOf (p : Payload) : VReq :=
  { account_number := asStr p.account_number
    sender_account_number :=
      if asStr p.sender_account_number = "" then asStr p.account_number
      else asStr p.sender_account_number
    sender_account_name := asStr p.sender_account_name
    receiver_account_number := asStr p.receiver_account_number
    receiver_account_name := asStr p.receiver_account_name
    typ := if pyLower (asStr p.type) = "credit" then .credit else .debit
    description := asStr p.description
    created_by := asStr p.created_by
    ledger_id := asStr p.ledger_id
    amount := (toDecimal p.amount).getD (.fin 0) }

lemma exBind_ok {α β : Type _} (a : α) (f : α → Except String β) :
    (Except.ok a >>= f) = f a := rfl

lemma exBind_err {α β : Type _} (msg : String) (f : α → Except String β) :
    ((Except.error msg : Except String α) >>= f) = .error msg := rfl

lemma exPure {α : Type _} (x : α) : (pure x : Except String α) = .ok x := rfl

lemma typOf_req {p : Payload}
    (h3 : pyLower (asStr p.type) = "credit" ∨ pyLower (asStr p.type) = "debit") :
    typOf (pyLower (asStr p.type)) = some (reqOf p).typ := by
  rcases h3 with h3 | h3 <;> rw [reqOf] <;> rw [h3] <;> simp [typOf]

lemma typOf_some {ts : String} {t : EntryType} (h : typOf ts = some t) :
    ts = "credit" ∨ ts = "debit" := by
  unfold typOf at h
  by_cases hc : ts = "credit"
  · exact Or.inl hc
  · by_cases hd : ts = "debit"
    · exact Or.inr hd
    · simp [hc, hd] at h

lemma create_one_ledger_pass {readV commitV : ℕ → Store} {m : Meta} {p : Payload}
    (h : PassesValidation p) :
    create_one_ledger readV commitV m p = .ok (loopGo readV commitV (reqOf p) m 1 5) := by
  obtain ⟨h1, h2, h3, ⟨d, hd, hle⟩, h5⟩ := h
  have hty := typOf_req h3
  simp only [create_one_ledger, h1, h2, hty, hd, hle, ite_true, ite_false]
  simp [h1, h2, Except.bind, hle]
  rcases h5 with h5 | h5 <;> simp [h5, reqOf, hd] <;> rfl

/-- Every `.ok` outcome of `create_one_ledger` is either an early validation
rejection — no attempt was made, nothing committed — or the result of the
retry loop on the normalised request. -/
lemma create_one_ledger_cases {readV commitV : ℕ → Store} {m : Meta} {p : Payload}
    {ro : RunOut} (h : create_one_ledger readV commitV m p = .ok ro) :
    (ro.committed = none ∧ ro.attempts = 0 ∧ ro.resp.is_created = false)
    ∨ (PassesValidation p ∧ ro = loopGo readV commitV (reqOf p) m 1 5) := by
  by_cases h1 : asStr p.account_number = ""
  · left
    simp only [create_one_ledger, h1, ite_true, if_pos] at h
    have : ro = rejected "account_number is required" "" := by
      simpa [exBind_ok, exPure] using h.symm
    subst this
    exact ⟨rfl, rfl, rfl⟩
  by_cases h2 : asStr p.ledger_id = ""
  · left
    simp only [create_one_ledger, h1, h2, ite_true, ite_false, if_pos, if_neg] at h
    have : ro = rejected "ledger_id is required" "" := by
      simpa [h1, exBind_ok, exPure] using h.symm
    subst this
    exact ⟨rfl, rfl, rfl⟩
  cases hty : typOf (pyLower (asStr p.type)) with
  | none =>
      left
      simp only [create_one_ledger, h1, h2, hty, ite_true, ite_false] at h
      have : ro = rejected msgBadType (asStr p.ledger_id) := by
        simpa [exBind_ok, exPure] using h.symm
      subst this
      exact ⟨rfl, rfl, rfl⟩
  | some typ =>
    cases ha : toDecimal p.amount with
    | none =>
        left
        simp only [create_one_ledger, h1, h2, hty, ha, ite_true, ite_false] at h
        have : ro = rejected "amount must be a positive number" (asStr p.ledger_id) := by
          simpa [exBind_ok, exPure] using h.symm
        subst this
        exact ⟨rfl, rfl, rfl⟩
    | some d =>
        cases hle : d.le0 with
        | error msg =>
            exfalso
            simp [create_one_ledger, h1, h2, hty, ha, hle, exBind_ok, exBind_err, exPure] at h
        | ok b =>
            cases b with
            | true =>
                left
                simp only [create_one_ledger, h1, h2, hty, ha, hle, ite_true,
                  ite_false] at h
                have : ro = rejected "amount must be a positive number" (asStr p.ledger_id) := by
                  simpa [exBind_ok, exPure] using h.symm
                subst this
                exact ⟨rfl, rfl, rfl⟩
            | false =>
                by_cases h5 : asStr p.sender_account_number ≠ "" ∧
                    asStr p.sender_account_number ≠ asStr p.account_number
                · left
                  simp only [create_one_ledger, h1, h2, hty, ha, hle, h5,
                    ite_true, ite_false] at h
                  have : ro = rejected "account_number must match sender_account_number"
                      (asStr p.ledger_id) := by
                    simpa [h5, exBind_ok, exPure] using h.symm
                  subst this
                  exact ⟨rfl, rfl, rfl⟩
                · right
                  have h5' : asStr p.sender_account_number = "" ∨
                      asStr p.sender_account_number = asStr p.account_number := by
                    by_cases hs : asStr p.sender_account_number = ""
                    · exact Or.inl hs
                    · right
                      by_contra hne
                      exact h5 ⟨hs, hne⟩
                  have hpass : PassesValidation p :=
                    ⟨h1, h2, typOf_some hty, ⟨d, ha, hle⟩, h5'⟩
                  rw [create_one_ledger_pass hpass] at h
                  exact ⟨hpass, by simpa using h.symm⟩

lemma loopGo_attempts_le (readV commitV : ℕ → Store) (r : VReq) (m : Meta) :
    ∀ fuel a, (loopGo readV commitV r m a fuel).attempts ≤ fuel := by
  intro fuel
  induction fuel with
  | zero => intro a; simp [loopGo]
  | succ f ih =>
      intro a
      rcases hA : attemptCommit (commitV a) (rowAt (readV a) (statePk r.account_number)) r m with
        ⟨s', e⟩ | rs | - | -
      · simp [loopGo, hA]
      · cases hv : hasReason rs .validationErr with
        | true => simp [loopGo, hA, hv]
        | false =>
            cases hcc : hasReason rs .ccf && decide (a < 5) with
            | true =>
                simp only [loopGo, hA, hv, hcc, Bool.false_eq_true, if_false, if_true]
                exact Nat.succ_le_succ (ih (a + 1))
            | false => simp [loopGo, hA, hv, hcc]
      · simp [loopGo, hA]
      · simp [loopGo, hA]

lemma attemptCommit_entry_shape {s : Store} {snap : Option Row} {r : VReq} {m : Meta}
    {s' : Store} {e : Entry} (hc : attemptCommit s snap r m = .committed s' e) :
    ∃ bb ba, e = mkEntry r m bb ba := by
  rcases hsp : snapInfo snap with ⟨ex, bal, ver⟩
  simp only [attemptCommit, hsp] at hc
  split at hc
  · simp at hc
  · split at hc
    · simp at hc
    · split at hc <;> split at hc <;>
        first
          | (injection hc with hx hy; exact ⟨_, _, hy.symm⟩)
          | simp at hc

lemma loopGo_committed_shape {readV commitV : ℕ → Store} {r : VReq} {m : Meta} :
    ∀ {fuel a s' e}, (loopGo readV commitV r m a fuel).committed = some (s', e) →
      ∃ bb ba, e = mkEntry r m bb ba := by
  intro fuel
  induction fuel with
  | zero => intro a s' e h; simp [loopGo] at h
  | succ f ih =>
      intro a s' e h
      rcases hA : attemptCommit (commitV a) (rowAt (readV a) (statePk r.account_number)) r m with
        ⟨s'', e''⟩ | rs | - | -
      · simp only [loopGo, hA] at h
        obtain ⟨rfl, rfl⟩ : s'' = s' ∧ e'' = e := by
          simpa using h
        exact attemptCommit_entry_shape hA
      · cases hv : hasReason rs .validationErr with
        | true => simp [loopGo, hA, hv] at h
        | false =>
            cases hcc : hasReason rs .ccf && decide (a < 5) with
            | true =>
                simp only [loopGo, hA, hv, hcc, Bool.false_eq_true, if_false, if_true] at h
                exact ih h
            | false => simp [loopGo, hA, hv, hcc] at h
      · simp [loopGo, hA] at h
      · simp [loopGo, hA] at h

lemma applyAmount_fin_ok {t : EntryType} {bb : Dec} {q : ℚ} (h : bb ≠ .snan) :
    ∃ ba, applyAmount t bb (.fin q) = .ok ba := by
  cases t <;> cases bb <;>
    simp [applyAmount, Dec.add, Dec.sub, Dec.neg] <;> exact absurd rfl h

/-- A duplicate `ledger_id` makes the transaction's Put condition fail:
the attempt is cancelled with a `ConditionalCheckFailed` reason, whatever
the state row looks like. -/
lemma attemptCommit_dup {s : Store} {r : VReq} {m : Meta} {q : ℚ}
    (hamt : r.amount = .fin q)
    (hdup : (rowAt s r.ledger_id).isSome)
    (hnm : r.ledger_id ≠ statePk r.account_number)
    (hnsn : (snapInfo (rowAt s (statePk r.account_number))).2.1 ≠ .snan) :
    ∃ rs, attemptCommit s (rowAt s (statePk r.account_number)) r m = .canceled rs
      ∧ hasReason rs .ccf = true ∧ hasReason rs .validationErr = false := by
  rcases hsp : snapInfo (rowAt s (statePk r.account_number)) with ⟨ex, bal, ver⟩
  have hbal : bal ≠ .snan := by
    rw [hsp] at hnsn
    exact hnsn
  obtain ⟨ba, hba⟩ := @applyAmount_fin_ok r.typ bal q hbal
  rw [← hamt] at hba
  have hno : (rowAt s r.ledger_id).isNone = false := by
    rcases hrl : rowAt s r.ledger_id with - | rr
    · rw [hrl] at hdup
      simp at hdup
    · rfl
  simp only [attemptCommit, hsp, hba, if_neg hnm]
  cases ex with
  | true =>
      rw [if_pos rfl, hno, Bool.and_false, if_neg Bool.false_eq_true_eq_False]
      refine ⟨_, rfl, ?_, ?_⟩
      · simp [hasReason, reasonOf]
      · simp only [hasReason, List.any, reasonOf]
        split <;> simp
  | false =>
      rw [if_neg Bool.false_eq_true_eq_False, hno, Bool.and_false,
        if_neg Bool.false_eq_true_eq_False]
      refine ⟨_, rfl, ?_, ?_⟩
      · simp [hasReason, reasonOf]
      · simp only [hasReason, List.any, reasonOf]
        split <;> simp

/-- A stale snapshot whose version no longer matches the current state row
makes the transaction's Update condition fail. -/
lemma attemptCommit_version_conflict {s : Store} {snap : Option Row} {r : VReq}
    {m : Meta} {stS : AccountState} {ba : Dec}
    (hsnap : snap = some (.state stS))
    (hball : applyAmount r.typ stS.latest_balance r.amount = .ok ba)
    (hnm : r.ledger_id ≠ statePk r.account_number)
    (hver : ∀ row, rowAt s (statePk r.account_number) = some row →
      row.version? ≠ some stS.version) :
    ∃ rs, attemptCommit s snap r m = .canceled rs
      ∧ hasReason rs .ccf = true ∧ hasReason rs .validationErr = false := by
  subst hsnap
  have hc1 : (match rowAt s (statePk r.account_number) with
      | some row => (match row with
          | Row.entry _ => (none : Option ℕ)
          | Row.state st => some st.version) == some stS.version
      | none => false) = false := by
    cases hrow : rowAt s (statePk r.account_number) with
    | none => rfl
    | some row =>
        have h2 := hver row hrow
        cases row with
        | entry e => simp
        | state st => simpa [Row.version?] using h2
  simp only [attemptCommit, snapInfo, Row.latestBalance?, Row.version?, Option.getD,
    hball, if_neg hnm]
  rw [if_pos trivial]
  simp only [hc1, Bool.false_and]
  rw [if_neg Bool.false_eq_true_eq_False]
  refine ⟨_, rfl, ?_, ?_⟩
  · simp [hasReason, reasonOf]
  · simp only [hasReason, List.any, reasonOf]
    split <;> (try split) <;> simp

lemma loopGo_step_conflict (fuel : ℕ) {readV commitV : ℕ → Store} {r : VReq} {m : Meta}
    {a : ℕ} {rs : List CancelReason}
    (e : attemptCommit (commitV a) (rowAt (readV a) (statePk r.account_number)) r m
      = .canceled rs)
    (hc : hasReason rs .ccf = true) (hv : hasReason rs .validationErr = false)
    (ha : a < 5) :
    loopGo readV commitV r m a (fuel + 1) =
      ⟨(loopGo readV commitV r m (a + 1) fuel).resp,
        (loopGo readV commitV r m (a + 1) fuel).committed,
        (loopGo readV commitV r m (a + 1) fuel).attempts + 1,
        backoff a :: (loopGo readV commitV r m (a + 1) fuel).sleeps⟩ := by
  simp [loopGo, e, hc, hv, ha]

lemma loopGo_last_conflict (fuel : ℕ) {readV commitV : ℕ → Store} {r : VReq} {m : Meta}
    {rs : List CancelReason}
    (e : attemptCommit (commitV 5) (rowAt (readV 5) (statePk r.account_number)) r m
      = .canceled rs)
    (hc : hasReason rs .ccf = true) (hv : hasReason rs .validationErr = false) :
    loopGo readV commitV r m 5 (fuel + 1) =
      ⟨⟨false, "Transaction failed: " ++ canceledMsg, r.ledger_id, none, none⟩,
        none, 1, []⟩ := by
  simp [loopGo, e, hc, hv]

/-- Exhausting the retry loop: when every one of the five attempts is
cancelled on a conditional-check failure, the call stops after exactly five
attempts, with the four exponential backoff sleeps, and reports failure. -/
lemma loopGo_conflict_run {readV commitV : ℕ → Store} {r : VReq} {m : Meta}
    (h : ∀ i, 1 ≤ i → i ≤ 5 → ∃ rs,
      attemptCommit (commitV i) (rowAt (readV i) (statePk r.account_number)) r m
        = .canceled rs
      ∧ hasReason rs .ccf = true ∧ hasReason rs .validationErr = false) :
    loopGo readV commitV r m 1 5 =
      ⟨⟨false, "Transaction failed: " ++ canceledMsg, r.ledger_id, none, none⟩,
        none, 5, [backoff 1, backoff 2, backoff 3, backoff 4]⟩ := by
  obtain ⟨rs1, e1, c1, v1⟩ := h 1 (by norm_num) (by norm_num)
  obtain ⟨rs2, e2, c2, v2⟩ := h 2 (by norm_num) (by norm_num)
  obtain ⟨rs3, e3, c3, v3⟩ := h 3 (by norm_num) (by norm_num)
  obtain ⟨rs4, e4, c4, v4⟩ := h 4 (by norm_num) (by norm_num)
  obtain ⟨rs5, e5, c5, v5⟩ := h 5 (by norm_num) (by norm_num)
  have L5 : loopGo readV commitV r m 5 1 =
      ⟨⟨false, "Transaction failed: " ++ canceledMsg, r.ledger_id, none, none⟩,
        none, 1, []⟩ := loopGo_last_conflict 0 e5 c5 v5
  have L4 : loopGo readV commitV r m 4 2 =
      ⟨⟨false, "Transaction failed: " ++ canceledMsg, r.ledger_id, none, none⟩,
        none, 2, [backoff 4]⟩ := by
    have hs := loopGo_step_conflict 1 e4 c4 v4 (by norm_num)
    norm_num at hs
    rw [hs, L5]
  have L3 : loopGo readV commitV r m 3 3 =
      ⟨⟨false, "Transaction failed: " ++ canceledMsg, r.ledger_id, none, none⟩,
        none, 3, [backoff 3, backoff 4]⟩ := by
    have hs := loopGo_step_conflict 2 e3 c3 v3 (by norm_num)
    norm_num at hs
    rw [hs, L4]
  have L2 : loopGo readV commitV r m 2 4 =
      ⟨⟨false, "Transaction failed: " ++ canceledMsg, r.ledger_id, none, none⟩,
        none, 4, [backoff 2, backoff 3, backoff 4]⟩ := by
    have hs := loopGo_step_conflict 3 e2 c2 v2 (by norm_num)
    norm_num at hs
    rw [hs, L3]
  have hs := loopGo_step_conflict 4 e1 c1 v1 (by norm_num)
  norm_num at hs
  rw [hs, L2]

lemma loopGo_first_success {readV commitV : ℕ → Store} {r : VReq} {m : Meta}
    {s' : Store} {e : Entry}
    (hA : attemptCommit (commitV 1) (rowAt (readV 1) (statePk r.account_number)) r m
      = .committed s' e) :
    loopGo readV commitV r m 1 5 =
      ⟨⟨true, "Created", r.ledger_id, some e.balance_before, some e.balance_after⟩,
        some (s', e), 1, []⟩ := by
  simp [loopGo, hA]

lemma reqOf_amount {p : Payload} {d : Dec} (h : toDecimal p.amount = some d) :
    (reqOf p).amount = d := by
  simp [reqOf, h]

lemma reqOf_typ_credit {p : Payload} (h : pyLower (asStr p.type) = "credit") :
    (reqOf p).typ = .credit := by
  simp [reqOf, h]

lemma reqOf_typ_debit {p : Payload} (h : pyLower (asStr p.type) = "debit") :
    (reqOf p).typ = .debit := by
  rw [reqOf]
  rw [h]
  simp

lemma attemptCommit_fresh_ok {s : Store} {r : VReq} {m : Meta} {ba : Dec}
    (hball : applyAmount r.typ (.fin 0) r.amount = .ok ba)
    (hnm : r.ledger_id ≠ statePk r.account_number)
    (hrow : rowAt s (statePk r.account_number) = none)
    (hfresh : rowAt s r.ledger_id = none) :
    attemptCommit s (rowAt s (statePk r.account_number)) r m =
      .committed
        (s ++ [.state ⟨r.account_number, ba, 1, m.created_iso, m.created_name⟩,
          .entry (mkEntry r m (.fin 0) ba)])
        (mkEntry r m (.fin 0) ba) := by
  simp [attemptCommit, snapInfo, hball, hrow, hfresh, hnm]

lemma attemptCommit_state_ok {s : Store} {r : VReq} {m : Meta} {st : AccountState}
    {ba : Dec}
    (hball : applyAmount r.typ st.latest_balance r.amount = .ok ba)
    (hnm : r.ledger_id ≠ statePk r.account_number)
    (hrow : rowAt s (statePk r.account_number) = some (.state st))
    (hfresh : rowAt s r.ledger_id = none) :
    attemptCommit s (rowAt s (statePk r.account_number)) r m =
      .committed
        (bumpState s (statePk r.account_number) ba (st.version + 1) m
          ++ [.entry (mkEntry r m st.latest_balance ba)])
        (mkEntry r m st.latest_balance ba) := by
  simp [attemptCommit, snapInfo, Row.latestBalance?, Row.version?, hball, hrow,
    hfresh, hnm]

/-- C4: for every valid request (non-empty `account_number` and `ledger_id`,
type credit or debit, positive decimal amount), `create_one_ledger` sets
`balance_before` to the account state's current `latest_balance` (0 when no
state row exists) and `balance_after = balance_before + amount` for a credit
and `balance_before - amount` for a debit, and the committed ledger item
carries exactly these two values. -/
theorem balance_computation {s : Store} {m : Meta} {p : Payload} {q : ℚ}
    (hpass : PassesValidation p)
    (hq : toDecimal p.amount = some (.fin q))
    (hstate : rowAt s (statePk (asStr p.account_number)) = none
      ∨ ∃ st b, rowAt s (statePk (asStr p.account_number)) = some (.state st)
          ∧ st.latest_balance = .fin b)
    (hfresh : rowAt s (asStr p.ledger_id) = none)
    (hnm : asStr p.ledger_id ≠ statePk (asStr p.account_number)) :
    ∃ ro s' e, create_one_ledger_seq s m p = .ok ro
      ∧ ro.resp = ⟨true, "Created", asStr p.ledger_id,
          some e.balance_before, some e.balance_after⟩
      ∧ ro.committed = some (s', e)
      ∧ e.amount = .fin q
      ∧ e.balance_before = (match rowAt s (statePk (asStr p.account_number)) with
          | some (.state st) => st.latest_balance
          | _ => Dec.fin 0)
      ∧ (pyLower (asStr p.type) = "credit" →
          ∃ b, e.balance_before = .fin b ∧ e.balance_after = .fin (b + q))
      ∧ (pyLower (asStr p.type) = "debit" →
          ∃ b, e.balance_before = .fin b ∧ e.balance_after = .fin (b - q)) := by
  have hamt : (reqOf p).amount = .fin q := reqOf_amount hq
  have hrun : create_one_ledger_seq s m p
      = .ok (loopGo (fun _ => s) (fun _ => s) (reqOf p) m 1 5) :=
    create_one_ledger_pass hpass
  have hbb : ∃ bb, (match rowAt s (statePk (asStr p.account_number)) with
      | some (.state st) => st.latest_balance
      | _ => Dec.fin 0) = Dec.fin bb := by
    rcases hstate with hrow | ⟨st, b, hrow, hb⟩
    · exact ⟨0, by rw [hrow]⟩
    · exact ⟨b, by rw [hrow]; exact hb⟩
  obtain ⟨bb, hbbv⟩ := hbb
  have hball : ∀ t : EntryType, ∃ ba, applyAmount t (.fin bb) (.fin q) = .ok ba
      ∧ (t = .credit → ba = .fin (bb + q)) ∧ (t = .debit → ba = .fin (bb - q)) := by
    intro t
    cases t with
    | credit =>
        exact ⟨.fin (bb + q), by simp [applyAmount, Dec.add], fun _ => rfl, by simp⟩
    | debit =>
        refine ⟨.fin (bb - q), ?_, by simp, fun _ => rfl⟩
        simp [applyAmount, Dec.sub, Dec.add, Dec.neg, sub_eq_add_neg]
  obtain ⟨ba, hba, hbac, hbad⟩ := hball (reqOf p).typ
  rw [← hamt] at hba
  have hAC : attemptCommit s (rowAt s (statePk (reqOf p).account_number)) (reqOf p) m
      = .committed
        (match rowAt s (statePk (asStr p.account_number)) with
         | some (.state st) =>
            bumpState s (statePk (asStr p.account_number)) ba (st.version + 1) m
              ++ [.entry (mkEntry (reqOf p) m (.fin bb) ba)]
         | _ => s ++ [.state ⟨asStr p.account_number, ba, 1, m.created_iso, m.created_name⟩,
            .entry (mkEntry (reqOf p) m (.fin bb) ba)])
        (mkEntry (reqOf p) m (.fin bb) ba) := by
    rcases hstate with hrow | ⟨st, b, hrow, hb⟩
    · rw [hrow] at hbbv
      have h0 : Dec.fin 0 = Dec.fin bb := hbbv
      have hbb0 : bb = (0 : ℚ) := by
        injection h0 with h1
        exact h1.symm
      subst hbb0
      rw [hrow]
      exact attemptCommit_fresh_ok hba hnm hrow hfresh
    · rw [hrow] at hbbv ⊢
      have hlb : st.latest_balance = .fin bb := hbbv
      have hball' : applyAmount (reqOf p).typ st.latest_balance (reqOf p).amount = .ok ba := by
        rw [hlb]
        exact hba
      have hres := @attemptCommit_state_ok s (reqOf p) m st ba hball' hnm hrow hfresh
      rw [← hlb]
      exact hres
  obtain ⟨S', hAC'⟩ : ∃ S',
      attemptCommit s (rowAt s (statePk (reqOf p).account_number)) (reqOf p) m
        = .committed S' (mkEntry (reqOf p) m (.fin bb) ba) := ⟨_, hAC⟩
  have hloop := @loopGo_first_success (fun _ => s) (fun _ => s) (reqOf p) m S' (mkEntry (reqOf p) m (.fin bb) ba) hAC'
  refine ⟨⟨⟨true, "Created", (reqOf p).ledger_id,
      some (mkEntry (reqOf p) m (.fin bb) ba).balance_before,
      some (mkEntry (reqOf p) m (.fin bb) ba).balance_after⟩,
      some (S', mkEntry (reqOf p) m (.fin bb) ba), 1, []⟩,
    S', mkEntry (reqOf p) m (.fin bb) ba, ?_, rfl, rfl, hamt, hbbv.symm, ?_, ?_⟩
  · rw [hrun, hloop]
  · intro hcred
    exact ⟨bb, rfl, hbac (reqOf_typ_credit hcred)⟩
  · intro hdeb
    exact ⟨bb, rfl, hbad (reqOf_typ_debit hdeb)⟩

/-- Sample clock output used to exercise the writers on concrete inputs. -/
def wMeta : Meta :=
  ⟨"2026-01-01T00:00:00+08:00", "2026-01-01",
    "January, 1, 2026, Thursday", "January, 1, 2026, Thursday, 12:00 AM"⟩

/-- Sample valid credit payload for account 1001. -/
def wPayload : Payload :=
  { account_number := .vstr "1001", type := .vstr "credit", amount := .vint 500,
    ledger_id := .vstr "e1", created_by := .vstr "00001",
    description := .vstr "first credit" }

lemma wPayload_passes : PassesValidation wPayload :=
  ⟨by decide, by decide, Or.inl rfl, ⟨.fin 500, rfl, rfl⟩, Or.inl rfl⟩

theorem balance_computation_witness :
    PassesValidation wPayload ∧
    ∃ ro s' e, create_one_ledger_seq [] wMeta wPayload = .ok ro
      ∧ ro.committed = some (s', e)
      ∧ e.balance_before = .fin 0 ∧ e.balance_after = .fin 500 := by
  have hpass : PassesValidation wPayload := wPayload_passes
  obtain ⟨ro, s', e, h1, h2, h3, h4, h5, h6, h7⟩ :=
    @balance_computation [] wMeta wPayload 500 hpass rfl (Or.inl rfl) rfl (by decide)
  obtain ⟨b, hb1, hb2⟩ := h6 rfl
  have hb0 : e.balance_before = .fin 0 := by
    rw [h5]
    rfl
  have hbb : b = 0 := by
    rw [hb0] at hb1
    injection hb1 with h
    exact h.symm
  subst hbb
  refine ⟨hpass, ro, s', e, h1, h3, hb0, ?_⟩
  rw [hb2]
  norm_num

/-- C6: a payload whose amount is non-positive, non-numeric, boolean, null
or empty, whose `account_number` is missing or empty, or whose type is
outside credit/debit, is rejected before any table access: `is_created` is
false, the message names a violated rule, no attempt is made and nothing is
committed. -/
theorem invalid_input_rejected {readV commitV : ℕ → Store} {m : Meta} {p : Payload}
    (hbad : asStr p.account_number = ""
      ∨ toDecimal p.amount = none
      ∨ (∃ q, toDecimal p.amount = some (.fin q) ∧ q ≤ 0)
      ∨ toDecimal p.amount = some .negInf
      ∨ typOf (pyLower (asStr p.type)) = none) :
    ∃ ro, create_one_ledger readV commitV m p = .ok ro
      ∧ ro.resp.is_created = false
      ∧ ro.committed = none ∧ ro.attempts = 0 ∧ ro.sleeps = []
      ∧ ro.resp.message ∈ ["account_number is required", "ledger_id is required",
          msgBadType, "amount must be a positive number"] := by
  by_cases h1 : asStr p.account_number = ""
  · refine ⟨rejected "account_number is required" "", ?_, rfl, rfl, rfl, rfl, by simp [rejected]⟩
    simp [create_one_ledger, h1, exPure, exBind_ok]
  by_cases h2 : asStr p.ledger_id = ""
  · refine ⟨rejected "ledger_id is required" "", ?_, rfl, rfl, rfl, rfl, by simp [rejected]⟩
    simp [create_one_ledger, h1, h2, exPure, exBind_ok]
  cases hty : typOf (pyLower (asStr p.type)) with
  | none =>
      refine ⟨rejected msgBadType (asStr p.ledger_id), ?_, rfl, rfl, rfl, rfl, by simp [rejected]⟩
      simp [create_one_ledger, h1, h2, hty, exPure, exBind_ok]
  | some typ =>
      have hbadA : toDecimal p.amount = none
          ∨ (∃ q, toDecimal p.amount = some (.fin q) ∧ q ≤ 0)
          ∨ toDecimal p.amount = some .negInf := by
        rcases hbad with h | h | h | h | h
        · exact absurd h h1
        · exact Or.inl h
        · exact Or.inr (Or.inl h)
        · exact Or.inr (Or.inr h)
        · rw [hty] at h
          simp at h
      have hgoal : ∃ d, toDecimal p.amount = some d ∧ d.le0 = .ok true ∨
          toDecimal p.amount = none := by
        rcases hbadA with h | ⟨q, hq, hle⟩ | h
        · exact ⟨.fin 0, Or.inr h⟩
        · refine ⟨.fin q, Or.inl ⟨hq, ?_⟩⟩
          simp [Dec.le0, hle]
        · exact ⟨.negInf, Or.inl ⟨h, rfl⟩⟩
      obtain ⟨d, hd⟩ := hgoal
      rcases hd with ⟨hdv, hdle⟩ | hnone
      · refine ⟨rejected "amount must be a positive number" (asStr p.ledger_id),
          ?_, rfl, rfl, rfl, rfl, by simp [rejected]⟩
        simp [create_one_ledger, h1, h2, hty, hdv, hdle, exPure, exBind_ok, Except.bind]
      · refine ⟨rejected "amount must be a positive number" (asStr p.ledger_id),
          ?_, rfl, rfl, rfl, rfl, by simp [rejected]⟩
        simp [create_one_ledger, h1, h2, hty, hnone, exPure, exBind_ok]

/-- C6 witness input: amount 0 is not positive. -/
def w6Payload : Payload :=
  { account_number := .vstr "1001", type := .vstr "credit", amount := .vint 0,
    ledger_id := .vstr "e9" }

theorem invalid_input_rejected_witness :
    ∃ ro, create_one_ledger (fun _ => ([] : Store)) (fun _ => []) wMeta w6Payload = .ok ro
      ∧ ro.resp.is_created = false
      ∧ ro.committed = none ∧ ro.attempts = 0 ∧ ro.sleeps = []
      ∧ ro.resp.message ∈ ["account_number is required", "ledger_id is required",
          msgBadType, "amount must be a positive number"] :=
  invalid_input_rejected (Or.inr (Or.inr (Or.inl ⟨0, rfl, le_refl 0⟩)))

/-- C9: a non-empty `sender_account_number` different from `account_number`
is rejected with no table access; consequently every ledger item committed
by `create_one_ledger` has `sender_account_number = account_number` (an
empty sender is defaulted to the account). -/
theorem sender_equals_account :
    (∀ (readV commitV : ℕ → Store) (m : Meta) (p : Payload),
      asStr p.sender_account_number ≠ "" →
      asStr p.sender_account_number ≠ asStr p.account_number →
      asStr p.account_number ≠ "" → asStr p.ledger_id ≠ "" →
      ∀ typ, typOf (pyLower (asStr p.type)) = some typ →
      ∀ d, toDecimal p.amount = some d → d.le0 = .ok false →
      create_one_ledger readV commitV m p
        = .ok (rejected "account_number must match sender_account_number"
            (asStr p.ledger_id)))
    ∧ (∀ (readV commitV : ℕ → Store) (m : Meta) (p : Payload) (ro : RunOut)
        (s' : Store) (e : Entry),
        create_one_ledger readV commitV m p = .ok ro →
        ro.committed = some (s', e) →
        e.sender_account_number = e.account_number) := by
  constructor
  · intro readV commitV m p hs1 hs2 h1 h2 typ hty d hd hle
    simp [create_one_ledger, h1, h2, hty, hd, hle, hs1, hs2, exPure, exBind_ok,
      Except.bind]
  · intro readV commitV m p ro s' e h hcom
    rcases create_one_ledger_cases h with ⟨hnone, -, -⟩ | ⟨hpass, rfl⟩
    · rw [hnone] at hcom
      simp at hcom
    · obtain ⟨bb, ba, rfl⟩ := loopGo_committed_shape hcom
      show (reqOf p).sender_account_number = (reqOf p).account_number
      rcases hpass.2.2.2.2 with h5 | h5 <;> simp [reqOf, h5]

/-- C9 witness input: sender 2002 differs from account 1001. -/
def w9Payload : Payload :=
  { account_number := .vstr "1001", sender_account_number := .vstr "2002",
    type := .vstr "credit", amount := .vint 5, ledger_id := .vstr "e7" }

theorem sender_equals_account_witness :
    create_one_ledger (fun _ => ([] : Store)) (fun _ => []) wMeta w9Payload
      = .ok (rejected "account_number must match sender_account_number"
          (asStr w9Payload.ledger_id)) :=
  sender_equals_account.1 (fun _ => []) (fun _ => []) wMeta w9Payload
    (by decide) (by decide) (by decide) (by decide) .credit rfl (.fin 5) rfl rfl

/-- The table left by a first successful `create_one_ledger` call on
`wPayload` from an empty table. -/
def wStore1 : Store :=
  [.state ⟨"1001", .fin 500, 1, wMeta.created_iso, wMeta.created_name⟩,
   .entry (mkEntry (reqOf wPayload) wMeta (.fin 0) (.fin 500))]

lemma wBall1 : applyAmount (reqOf wPayload).typ (.fin 0) (reqOf wPayload).amount
    = .ok (.fin 500) := by
  show Except.ok (Dec.fin (0 + 500)) = Except.ok (Dec.fin 500)
  norm_num

lemma wCommit1 : attemptCommit ([] : Store)
    (rowAt [] (statePk (reqOf wPayload).account_number)) (reqOf wPayload) wMeta
    = .committed wStore1 (mkEntry (reqOf wPayload) wMeta (.fin 0) (.fin 500)) :=
  @attemptCommit_fresh_ok [] (reqOf wPayload) wMeta (.fin 500) wBall1 (by decide) rfl rfl

/-- C1 counterexample: replaying the identical payload (same `ledger_id`,
same amount and type) against the table produced by the first call does NOT
return success: the code has no idempotent-replay path, it retries five
times and reports failure. -/
theorem replay_second_call_cex :
    create_one_ledger_seq [] wMeta wPayload
      = .ok ⟨⟨true, "Created", "e1", some (.fin 0), some (.fin 500)⟩,
          some (wStore1, mkEntry (reqOf wPayload) wMeta (.fin 0) (.fin 500)), 1, []⟩
    ∧ (∃ ro2, create_one_ledger_seq wStore1 wMeta wPayload = .ok ro2
        ∧ ro2.resp.is_created = false ∧ ro2.committed = none ∧ ro2.attempts = 5) := by
  constructor
  · have h1 : create_one_ledger_seq [] wMeta wPayload
        = .ok (loopGo (fun _ => ([] : Store)) (fun _ => []) (reqOf wPayload) wMeta 1 5) :=
      create_one_ledger_pass wPayload_passes
    rw [h1, loopGo_first_success wCommit1]
    rfl
  · have hdup1 : ∃ rs,
        attemptCommit wStore1 (rowAt wStore1 (statePk (reqOf wPayload).account_number))
          (reqOf wPayload) wMeta = .canceled rs
        ∧ hasReason rs .ccf = true ∧ hasReason rs .validationErr = false :=
      attemptCommit_dup rfl (by decide) (by decide) (by decide)
    have hconf : ∀ i, 1 ≤ i → i ≤ 5 → ∃ rs,
        attemptCommit ((fun _ => wStore1) i)
          (rowAt ((fun _ => wStore1) i) (statePk (reqOf wPayload).account_number))
          (reqOf wPayload) wMeta = .canceled rs
        ∧ hasReason rs .ccf = true ∧ hasReason rs .validationErr = false :=
      fun _ _ _ => hdup1
    have h1 : create_one_ledger_seq wStore1 wMeta wPayload
        = .ok (loopGo (fun _ => wStore1) (fun _ => wStore1) (reqOf wPayload) wMeta 1 5) :=
      create_one_ledger_pass wPayload_passes
    have h2 : create_one_ledger_seq wStore1 wMeta wPayload
        = .ok ⟨⟨false, "Transaction failed: " ++ canceledMsg, asStr wPayload.ledger_id,
            none, none⟩, none, 5, [backoff 1, backoff 2, backoff 3, backoff 4]⟩ := by
      rw [h1, loopGo_conflict_run hconf]
      rfl
    exact ⟨_, h2, rfl, rfl, rfl⟩

/-- C1 amended: a second call with an already-committed `ledger_id` commits
nothing — the conditional Put cancels the whole transaction, leaving the
one existing entry and the balance untouched — but it is not treated as
success: whether or not the payload matches the stored entry, the call
retries five times and returns `is_created = false` with a transaction
failure message; there is no match check and no distinct DuplicateEntry
outcome. -/
theorem replay_rejected_after_retries {s : Store} {m : Meta} {p : Payload} {q : ℚ}
    (hpass : PassesValidation p)
    (hq : toDecimal p.amount = some (.fin q))
    (hdup : (rowAt s (asStr p.ledger_id)).isSome)
    (hnm : asStr p.ledger_id ≠ statePk (asStr p.account_number))
    (hnsn : (snapInfo (rowAt s (statePk (asStr p.account_number)))).2.1 ≠ .snan) :
    create_one_ledger_seq s m p = .ok
      ⟨⟨false, "Transaction failed: " ++ canceledMsg, asStr p.ledger_id, none, none⟩,
        none, 5, [backoff 1, backoff 2, backoff 3, backoff 4]⟩ := by
  have hamt : (reqOf p).amount = .fin q := reqOf_amount hq
  have hrun : create_one_ledger_seq s m p
      = .ok (loopGo (fun _ => s) (fun _ => s) (reqOf p) m 1 5) :=
    create_one_ledger_pass hpass
  rw [hrun]
  have hconf : ∀ i, 1 ≤ i → i ≤ 5 → ∃ rs,
      attemptCommit ((fun _ => s) i)
        (rowAt ((fun _ => s) i) (statePk (reqOf p).account_number)) (reqOf p) m
        = .canceled rs
      ∧ hasReason rs .ccf = true ∧ hasReason rs .validationErr = false :=
    fun _ _ _ => attemptCommit_dup hamt hdup hnm hnsn
  rw [loopGo_conflict_run hconf]
  rfl

theorem replay_rejected_after_retries_witness :
    create_one_ledger_seq wStore1 wMeta wPayload = .ok
      ⟨⟨false, "Transaction failed: " ++ canceledMsg, asStr wPayload.ledger_id,
          none, none⟩,
        none, 5, [backoff 1, backoff 2, backoff 3, backoff 4]⟩ :=
  @replay_rejected_after_retries wStore1 wMeta wPayload 500 wPayload_passes rfl
    (by decide) (by decide) (by decide)

/-- C8: the retry loop is bounded: every `create_one_ledger` call performs
at most five attempts; when all five attempts are cancelled on a
conditional-check (version) failure the call stops after exactly five
attempts with the four exponential backoff sleeps and reports failure
rather than looping forever; the backoff starts at 0.05 s and doubles. -/
theorem bounded_retry :
    (∀ (readV commitV : ℕ → Store) (m : Meta) (p : Payload) (ro : RunOut),
      create_one_ledger readV commitV m p = .ok ro → ro.attempts ≤ 5)
    ∧ (∀ (readV commitV : ℕ → Store) (r : VReq) (m : Meta),
        (∀ i, 1 ≤ i → i ≤ 5 → ∃ rs,
          attemptCommit (commitV i) (rowAt (readV i) (statePk r.account_number)) r m
            = .canceled rs
          ∧ hasReason rs .ccf = true ∧ hasReason rs .validationErr = false) →
        loopGo readV commitV r m 1 5 =
          ⟨⟨false, "Transaction failed: " ++ canceledMsg, r.ledger_id, none, none⟩,
            none, 5, [backoff 1, backoff 2, backoff 3, backoff 4]⟩)
    ∧ backoff 1 = 1 / 20
    ∧ (∀ a, 1 ≤ a → backoff (a + 1) = 2 * backoff a) := by
  refine ⟨?_, ?_, by norm_num [backoff], ?_⟩
  · intro readV commitV m p ro h
    rcases create_one_ledger_cases h with ⟨-, h0, -⟩ | ⟨-, rfl⟩
    · rw [h0]
      norm_num
    · exact loopGo_attempts_le readV commitV (reqOf p) m 5 1
  · intro readV commitV r m h
    exact loopGo_conflict_run h
  · intro a ha
    obtain ⟨b, rfl⟩ : ∃ b, a = b + 1 := ⟨a - 1, by omega⟩
    simp [backoff]
    ring

/-- C8 witness data: every read sees version 1 while every commit runs
against version 2, so each attempt trips the version fence. -/
def wReadV : ℕ → Store :=
  fun _ => [.state ⟨"1001", .fin 500, 1, wMeta.created_iso, wMeta.created_name⟩]

def wCommitV : ℕ → Store :=
  fun _ => [.state ⟨"1001", .fin 700, 2, wMeta.created_iso, wMeta.created_name⟩]

lemma wConflict : ∀ i, 1 ≤ i → i ≤ 5 → ∃ rs,
    attemptCommit (wCommitV i) (rowAt (wReadV i) (statePk (reqOf wPayload).account_number))
      (reqOf wPayload) wMeta = .canceled rs
    ∧ hasReason rs .ccf = true ∧ hasReason rs .validationErr = false := by
  intro i h1 h5
  have hsnap : rowAt (wReadV i) (statePk (reqOf wPayload).account_number)
      = some (.state ⟨"1001", .fin 500, 1, wMeta.created_iso, wMeta.created_name⟩) := rfl
  have hball : applyAmount (reqOf wPayload).typ
      (⟨"1001", .fin 500, 1, wMeta.created_iso, wMeta.created_name⟩ :
        AccountState).latest_balance (reqOf wPayload).amount = .ok (.fin 1000) := by
    show Except.ok (Dec.fin (500 + 500)) = Except.ok (Dec.fin 1000)
    norm_num
  refine attemptCommit_version_conflict hsnap hball (by decide) ?_
  intro row hrow
  have hrow0 : rowAt (wCommitV i) (statePk (reqOf wPayload).account_number)
      = some (.state ⟨"1001", .fin 700, 2, wMeta.created_iso, wMeta.created_name⟩) := rfl
  rw [hrow0] at hrow
  injection hrow with hrow
  rw [← hrow]
  simp [Row.version?]

theorem bounded_retry_witness :
    loopGo wReadV wCommitV (reqOf wPayload) wMeta 1 5 =
      ⟨⟨false, "Transaction failed: " ++ canceledMsg, (reqOf wPayload).ledger_id,
          none, none⟩,
        none, 5, [backoff 1, backoff 2, backoff 3, backoff 4]⟩ :=
  bounded_retry.2.1 wReadV wCommitV (reqOf wPayload) wMeta wConflict

/-- C2: along every interleaved execution, each account's committed entries
chain exactly — `balance_after` of the entry committed at version k equals
`balance_before` of the entry at version k+1 — the state row's version
always equals the number of committed entries for the account (so the
version values taken are 1, 2, ..., N with no gaps or repeats), and every
successful commit appends exactly one entry together with exactly one
version increment for its account, as a single all-or-nothing transaction
that touches no other account. -/
theorem ledger_version_chain :
    (∀ l, Trace l → ∀ s, s ∈ l → ∀ a,
      (∀ st, rowAt s (statePk a) = some (Row.state st) →
        st.version = (entriesOf s a).length
        ∧ st.latest_balance = lastBal (.fin 0) (entriesOf s a))
      ∧ (∀ k (hk : k + 1 < (entriesOf s a).length),
          ((entriesOf s a).get ⟨k, Nat.lt_of_succ_lt hk⟩).balance_after
            = ((entriesOf s a).get ⟨k + 1, hk⟩).balance_before))
    ∧ (∀ (t src s' : Store) (tr : List Store) (r : VReq) (m : Meta) (e : Entry),
        Trace (t :: tr) → src ∈ t :: tr →
        attemptCommit t (rowAt src (statePk r.account_number)) r m = .committed s' e →
        entriesOf s' r.account_number = entriesOf t r.account_number ++ [e]
        ∧ verOf s' r.account_number = verOf t r.account_number + 1
        ∧ (∀ b, b ≠ r.account_number →
            entriesOf s' b = entriesOf t b ∧ verOf s' b = verOf t b)) := by
  constructor
  · intro l hl s hs a
    obtain ⟨hinv, -, -⟩ := trace_ok hl
    obtain ⟨hchain, hstate⟩ := (hinv s hs).2 a
    constructor
    · intro st hst
      rw [hst] at hstate
      exact ⟨hstate.2.2.1, hstate.2.2.2⟩
    · exact chainedFrom_pairwise hchain
  · intro t src s' tr r m e hl hsrc hc
    obtain ⟨hinv, -, hcoh⟩ := trace_ok hl
    have hcoh' : ∀ a st1 st2, rowAt src (statePk a) = some (.state st1) →
        rowAt t (statePk a) = some (.state st2) →
        st1.version = st2.version → st1.latest_balance = st2.latest_balance :=
      fun a st1 st2 h1 h2 hv => hcoh src hsrc t (by simp) a st1 st2 h1 h2 hv
    obtain ⟨-, hesA, hesB, hverA, hverB, -, -, -⟩ :=
      commit_step (hinv t (by simp)) hcoh' hc
    exact ⟨hesA, hverA, fun b hb => ⟨hesB b hb, hverB b hb⟩⟩

/-- A second valid payload: debit 200 from account 1001. -/
def wPayload2 : Payload :=
  { account_number := .vstr "1001", type := .vstr "debit", amount := .vint 200,
    ledger_id := .vstr "e2", created_by := .vstr "00001",
    description := .vstr "second debit" }

/-- The table after committing `wPayload` then `wPayload2`. -/
def wStore2 : Store :=
  [.state ⟨"1001", .fin 300, 2, wMeta.created_iso, wMeta.created_name⟩,
   .entry (mkEntry (reqOf wPayload) wMeta (.fin 0) (.fin 500)),
   .entry (mkEntry (reqOf wPayload2) wMeta (.fin 500) (.fin 300))]

lemma wBall2 : applyAmount (reqOf wPayload2).typ
    (⟨"1001", .fin 500, 1, wMeta.created_iso, wMeta.created_name⟩ :
      AccountState).latest_balance (reqOf wPayload2).amount = .ok (.fin 300) := by
  show Except.ok (Dec.fin (500 + -200)) = Except.ok (Dec.fin 300)
  norm_num

lemma wCommit2 : attemptCommit wStore1
    (rowAt wStore1 (statePk (reqOf wPayload2).account_number)) (reqOf wPayload2) wMeta
    = .committed wStore2 (mkEntry (reqOf wPayload2) wMeta (.fin 500) (.fin 300)) :=
  @attemptCommit_state_ok wStore1 (reqOf wPayload2) wMeta
    ⟨"1001", .fin 500, 1, wMeta.created_iso, wMeta.created_name⟩ (.fin 300)
    wBall2 (by decide) rfl rfl

lemma wTrace2 : Trace [wStore2, wStore1, []] := by
  have t0 : Trace [([] : Store)] := Trace.init
  have t1 : Trace [wStore1, []] := Trace.step t0 (by simp) wCommit1
  exact Trace.step t1 (by simp) wCommit2

theorem ledger_version_chain_witness :
    (entriesOf wStore2 "1001").length = 2
    ∧ (⟨"1001", .fin 300, 2, wMeta.created_iso, wMeta.created_name⟩ : AccountState).version
        = (entriesOf wStore2 "1001").length
    ∧ ((entriesOf wStore2 "1001").get ⟨0, by decide⟩).balance_after
        = ((entriesOf wStore2 "1001").get ⟨1, by decide⟩).balance_before := by
  have h := (ledger_version_chain.1 [wStore2, wStore1, []] wTrace2 wStore2
    (by simp) "1001")
  refine ⟨by decide, ?_, h.2 0 (by decide)⟩
  exact (h.1 ⟨"1001", .fin 300, 2, wMeta.created_iso, wMeta.created_name⟩ (by decide)).1

end Ledgers

namespace Transactions

/-- Sample valid transfer payload: account A sends 100 to B. -/
def wTxPayload : TxPayload :=
  { account_number := some (.vstr "A"), sender_account_number := some (.vstr "A"),
    sender_account_name := some (.vstr "Alice"),
    receiver_account_number := some (.vstr "B"),
    receiver_account_name := some (.vstr "Bob"),
    description := some (.vstr "transfer"), amount := some (.vint 100),
    transaction_id := some (.vstr "123e4567-e89b-12d3-a456-426614174000"),
    created_by := some (.vstr "00001") }

lemma countTx_zero_of_absent {s : TxStore} {q : String}
    (hpk : ∀ it ∈ s, it.pk = it.transaction_id)
    (h : txRowAt s q = none) : countTx s q = 0 := by
  rw [countTx, List.length_eq_zero, List.filter_eq_nil_iff]
  intro it hit
  have h1 : ∀ it ∈ s, ¬ (it.pk == q) = true := by
    simpa [txRowAt, List.find?_eq_none] using h
  have h2 := h1 it hit
  rw [hpk it hit] at h2
  simpa using h2

/-- C3 counterexample: a committed `transaction_id` whose query returns
exactly ONE row — not two legs — because `create_transaction` writes a
single item keyed by the `transaction_id`, tagged `sender`/`receiver`
rather than credit/debit. -/
theorem transfer_single_row_cex :
    ∃ resp s', create_transaction [] Ledgers.wMeta wTxPayload = .ok (resp, s')
      ∧ resp.is_created = true
      ∧ countTx s' "123e4567-e89b-12d3-a456-426614174000" = 1
      ∧ (∀ it ∈ s', it.typ ≠ "credit" ∧ it.typ ≠ "debit") :=
  ⟨⟨true, "created"⟩, [mkTxItem wTxPayload Ledgers.wMeta (.fin 100)],
    rfl, rfl, by decide, by decide⟩

/-- C3 amended: `create_transaction` commits at most one row per
`transaction_id` (zero before the transfer, exactly one after), in a single
conditional put keyed by the `transaction_id` — either that one item is
inserted or nothing is — and the row carries a `sender`/`receiver` tag, not
a credit and a debit leg. -/
theorem transfer_zero_or_one_row {s : TxStore} {m : Meta} {p : TxPayload}
    (hpk : ∀ it ∈ s, it.pk = it.transaction_id)
    (hinv : ∀ tid, countTx s tid ≤ 1) :
    ∀ resp s', create_transaction s m p = .ok (resp, s') →
      (∀ it ∈ s', it.pk = it.transaction_id)
      ∧ (∀ tid, countTx s' tid ≤ 1)
      ∧ (resp.is_created = true →
          ∃ amt, s' = s ++ [mkTxItem p m amt]
            ∧ ((mkTxItem p m amt).typ = "sender" ∨ (mkTxItem p m amt).typ = "receiver"))
      ∧ (resp.is_created = false → s' = s) := by
  intro resp s' h
  cases hv : validatePayload p with
  | error e =>
      rw [create_transaction] at h
      rw [hv] at h
      simp [Ledgers.exBind_err] at h
  | ok pr =>
      obtain ⟨okb, msg⟩ := pr
      cases okb with
      | false =>
          rw [create_transaction] at h
          rw [hv] at h
          simp only [Ledgers.exBind_ok, Ledgers.exPure, Bool.not_false, ite_true, if_pos] at h
          obtain ⟨rfl, rfl⟩ : (⟨false, msg⟩ : TxResp) = resp ∧ s = s' := by
            simpa using h
          exact ⟨hpk, hinv, by simp, fun _ => rfl⟩
      | true =>
          cases htd : toDec ((p.amount).getD .vnull) with
          | error e =>
              rw [create_transaction] at h
              rw [hv] at h
              simp [Ledgers.exBind_ok, Ledgers.exBind_err, htd] at h
          | ok amt =>
              rw [create_transaction] at h
              rw [hv] at h
              simp only [Ledgers.exBind_ok, Ledgers.exPure, Bool.not_true, htd] at h
              rw [if_neg (by simp)] at h
              by_cases hdup : (txRowAt s (mkTxItem p m amt).pk).isSome
              · rw [if_pos hdup] at h
                obtain ⟨rfl, rfl⟩ : (⟨false, "transaction_id already exists"⟩ : TxResp) = resp
                    ∧ s = s' := by
                  simpa using h
                exact ⟨hpk, hinv, by simp, fun _ => rfl⟩
              · rw [if_neg hdup] at h
                obtain ⟨rfl, rfl⟩ : (⟨true, "created"⟩ : TxResp) = resp
                    ∧ s ++ [mkTxItem p m amt] = s' := by
                  simpa using h
                have habs : txRowAt s (mkTxItem p m amt).pk = none := by
                  cases hx : txRowAt s (mkTxItem p m amt).pk with
                  | none => rfl
                  | some it =>
                      rw [hx] at hdup
                      simp at hdup
                refine ⟨?_, ?_, ?_, by simp⟩
                · intro it hit
                  rcases List.mem_append.1 hit with hl | hr
                  · exact hpk it hl
                  · rw [List.mem_singleton] at hr
                    subst hr
                    rfl
                · intro tid
                  rw [countTx, List.filter_append, List.length_append]
                  by_cases ht : (mkTxItem p m amt).transaction_id = tid
                  · have h0 : countTx s tid = 0 := by
                      rw [← ht]
                      exact countTx_zero_of_absent hpk habs
                    rw [countTx] at h0
                    rw [h0]
                    simp [ht]
                  · have : countTx s tid ≤ 1 := hinv tid
                    rw [countTx] at this
                    simpa [ht] using this
                · intro _
                  refine ⟨amt, rfl, ?_⟩
                  rw [mkTxItem]
                  split <;> simp

theorem transfer_zero_or_one_row_witness :
    ∃ resp s', create_transaction [] Ledgers.wMeta wTxPayload = .ok (resp, s')
      ∧ (∀ tid, countTx s' tid ≤ 1)
      ∧ (resp.is_created = false → s' = []) := by
  obtain ⟨resp, s', h1, h2, h3⟩ :
      ∃ resp s', create_transaction [] Ledgers.wMeta wTxPayload = .ok (resp, s')
        ∧ resp = ⟨true, "created"⟩ ∧ s' = [mkTxItem wTxPayload Ledgers.wMeta (.fin 100)] := by
    exact ⟨⟨true, "created"⟩, [mkTxItem wTxPayload Ledgers.wMeta (.fin 100)], rfl, rfl, rfl⟩
  obtain ⟨hpk', hcnt, -, hfalse⟩ :=
    transfer_zero_or_one_row (s := ([] : TxStore)) (by simp) (by simp [countTx]) resp s' h1
  exact ⟨resp, s', h1, hcnt, hfalse⟩

/-- C5: when any item for the requested `transaction_id` already exists, a
valid `record_transfer` call fails with the duplicate-transaction message,
`is_created` false, and inserts nothing: the table is returned unchanged. -/
theorem duplicate_transaction_rejected {s : TxStore} {m : Meta} {p : TxPayload}
    (hval : validatePayload p = .ok (true, "ok"))
    (hdup : (txRowAt s (asStr ((p.transaction_id).getD .vnull))).isSome) :
    create_transaction s m p = .ok (⟨false, "transaction_id already exists"⟩, s) := by
  cases htd : toDec ((p.amount).getD .vnull) with
  | error e =>
      exfalso
      cases hcr : checkRequired (requiredFields p) with
      | some msg =>
          rw [validatePayload] at hval
          rw [hcr] at hval
          simp [Ledgers.exPure] at hval
      | none =>
          rw [validatePayload] at hval
          rw [hcr] at hval
          simp [Ledgers.exBind_err, htd] at hval
  | ok amt =>
      rw [create_transaction, hval]
      simp only [Ledgers.exBind_ok, Ledgers.exPure, Bool.not_true, htd]
      rw [if_neg (by simp)]
      have hpkeq : (mkTxItem p m amt).pk = asStr ((p.transaction_id).getD .vnull) := rfl
      rw [hpkeq, if_pos hdup]

theorem duplicate_transaction_rejected_witness :
    create_transaction [mkTxItem wTxPayload Ledgers.wMeta (.fin 100)] Ledgers.wMeta wTxPayload
      = .ok (⟨false, "transaction_id already exists"⟩,
          [mkTxItem wTxPayload Ledgers.wMeta (.fin 100)]) :=
  duplicate_transaction_rejected rfl rfl

end Transactions

namespace Recon

/-- Both slots of a pairing entry hold rows of the advertised leg type. -/
def SlotOK (pr : TxPair) : Prop :=
  (∀ d, pr.debit? = some d → asStr d.type = "debit")
  ∧ (∀ c, pr.credit? = some c → asStr c.type = "credit")

lemma setSlot_ok {pr : TxPair} (h : SlotOK pr) {it : RItem}
    (htyp : asStr it.type = "debit" ∨ asStr it.type = "credit") :
    SlotOK (setSlot pr (asStr it.type) it) := by
  rcases htyp with ht | ht <;> rw [setSlot] <;> rw [ht]
  · refine ⟨?_, h.2⟩
    intro d hd
    simp only [ite_true, if_pos] at hd
    simp at hd
    rw [← hd]
    exact ht
  · rw [if_neg (by simp)]
    refine ⟨h.1, ?_⟩
    intro c hc
    simp at hc
    rw [← hc]
    exact ht

lemma upsert_ok {m : List (String × TxPair)} {txid : String} {it : RItem}
    (hm : ∀ x ∈ m, SlotOK x.2)
    (htyp : asStr it.type = "debit" ∨ asStr it.type = "credit") :
    ∀ x ∈ upsert m txid (asStr it.type) it, SlotOK x.2 := by
  induction m with
  | nil =>
      intro x hx
      rw [upsert] at hx
      rw [List.mem_singleton] at hx
      subst hx
      exact setSlot_ok ⟨by simp [TxPair.debit?], by simp [TxPair.credit?]⟩ htyp
  | cons hd tl ih =>
      intro x hx
      obtain ⟨k, pr⟩ := hd
      rw [upsert] at hx
      by_cases hk : k = txid
      · rw [if_pos hk] at hx
        rcases List.mem_cons.1 hx with rfl | hx'
        · exact setSlot_ok (hm (k, pr) (by simp)) htyp
        · exact hm x (List.mem_cons_of_mem _ hx')
      · rw [if_neg hk] at hx
        rcases List.mem_cons.1 hx with rfl | hx'
        · exact hm (k, pr) (by simp)
        · exact ih (fun y hy => hm y (List.mem_cons_of_mem _ hy)) x hx'

lemma byTxStep_ok {m : List (String × TxPair)} {it : RItem}
    (hm : ∀ x ∈ m, SlotOK x.2) : ∀ x ∈ byTxStep m it, SlotOK x.2 := by
  rw [byTxStep]
  by_cases hskip : asStr it.transaction_id = ""
      ∨ (asStr it.type ≠ "debit" ∧ asStr it.type ≠ "credit")
  · rw [if_pos hskip]
    exact hm
  · rw [if_neg hskip]
    push_neg at hskip
    have htyp : asStr it.type = "debit" ∨ asStr it.type = "credit" := by
      by_cases hd : asStr it.type = "debit"
      · exact Or.inl hd
      · exact Or.inr ((hskip.2) hd)
    exact upsert_ok hm htyp

lemma byTx_fold_ok (rows : List RItem) :
    ∀ init, (∀ x ∈ init, SlotOK x.2) →
      ∀ x ∈ rows.foldl byTxStep init, SlotOK x.2 := by
  induction rows with
  | nil => intro init h x hx; exact h x hx
  | cons r rs ih =>
      intro init h x hx
      exact ih (byTxStep init r) (byTxStep_ok h) x hx

end Recon

namespace Verify

/-- A one-account table image for exercising the funds check: account 1001
has one (latest) item whose running balance is 300. -/
def wq : String → List VItem := fun e =>
  if e = "1001" then [⟨.vdec (.fin 300), .vnull⟩] else []

/-- Payload asking whether account 1001 can cover 250. -/
def wp : VPayload := ⟨some (.vstr "1001"), some (.vint 250)⟩

/-- C7: for a present, non-empty entity number and a finite non-negative
amount, `verify_sufficient_funds` answers from the most recent ledger item
for that entity: no item at all yields the negative "not found" answer with
its distinct message, while an item whose `balance_after` is the finite
decimal `b` yields `is_sufficient = true` exactly when the amount is at most
`b` — "Sufficient funds." in the positive case and the distinct
"Insufficient funds." message in the negative case. -/
theorem sufficient_funds_iff (q : String → List VItem) (p : VPayload)
    (ent : String) (amt : ℚ)
    (hent : pyStrip (pyStr ((p.entity_number).getD (.vstr ""))) = ent)
    (hne : ent ≠ "")
    (hamt : toDecimal ((p.amount).getD .vnull) none = .ok (some (.fin amt)))
    (hnn : 0 ≤ amt) :
    (q ent = [] →
      verify_sufficient_funds q p
        = .ok ⟨false, "No ledger entries found for this entity_number.", ent⟩)
    ∧ (∀ it rest b, q ent = it :: rest → it.balance_after = .vdec (.fin b) →
        verify_sufficient_funds q p
          = .ok ⟨decide (amt ≤ b),
              if amt ≤ b then "Sufficient funds." else "Insufficient funds.", ent⟩) := by
  have hlt : Dec.lt0 (.fin amt) = .ok false := by
    rw [Dec.lt0]
    simp [not_lt.2 hnn]
  constructor
  · intro hq
    rw [verify_sufficient_funds]
    rw [hent, hamt]
    simp only [Ledgers.exBind_ok, Ledgers.exPure]
    rw [if_neg hne, hlt]
    simp only [Ledgers.exBind_ok, Ledgers.exPure]
    rw [if_neg (by simp), hq]
  · intro it rest b hq hba
    rw [verify_sufficient_funds]
    rw [hent, hamt]
    simp only [Ledgers.exBind_ok, Ledgers.exPure]
    rw [if_neg hne, hlt]
    simp only [Ledgers.exBind_ok, Ledgers.exPure]
    rw [if_neg (by simp), hq]
    have hba2 : toDecimal (.vdec (.fin b)) none = .ok (some (.fin b)) := rfl
    have hge : Dec.ge (.fin b) (.fin amt) = .ok (decide (amt ≤ b)) := rfl
    simp only [hba, hba2, hge, Ledgers.exBind_ok, Ledgers.exPure]
    by_cases hc : amt ≤ b
    · rw [if_pos (by simpa using hc)]
      simp [hc]
    · rw [if_neg (by simpa using hc)]
      simp [hc]

theorem sufficient_funds_iff_witness :
    verify_sufficient_funds wq wp = .ok ⟨true, "Sufficient funds.", "1001"⟩ := by
  have h := (sufficient_funds_iff wq wp "1001" 250 rfl (by decide) rfl (by norm_num)).2
      ⟨.vdec (.fin 300), .vnull⟩ [] 300 rfl rfl
  rw [h]
  norm_num

end Verify

/-- C10: every item written by `create_transaction` carries the leg tag
`"sender"` (when the account is the sender) or `"receiver"` — never
`"credit"` or `"debit"` — while the pairing loop of
`build_double_entry_json` only files rows whose `type` is `"debit"` or
`"credit"` into the debit/credit slots. -/
theorem transfer_leg_tagging :
    (∀ (p : Transactions.TxPayload) (m : Meta) (amt : Dec),
      (Transactions.mkTxItem p m amt).typ =
        (if asStr ((p.account_number).getD .vnull)
            = asStr ((p.sender_account_number).getD .vnull)
         then "sender" else "receiver")
      ∧ (Transactions.mkTxItem p m amt).typ ≠ "credit"
      ∧ (Transactions.mkTxItem p m amt).typ ≠ "debit")
    ∧ (∀ (rows : List Recon.RItem) (txid : String) (pr : Recon.TxPair),
        (txid, pr) ∈ Recon.byTx rows →
        (∀ d, pr.debit? = some d → asStr d.type = "debit")
        ∧ (∀ c, pr.credit? = some c → asStr c.type = "credit")) := by
  constructor
  · intro p m amt
    refine ⟨rfl, ?_, ?_⟩ <;> rw [Transactions.mkTxItem] <;> split <;> simp
  · intro rows txid pr hmem
    exact Recon.byTx_fold_ok rows [] (by simp) (txid, pr) hmem

theorem transfer_leg_tagging_witness :
    (Transactions.mkTxItem Transactions.wTxPayload Ledgers.wMeta (.fin 100)).typ = "sender"
    ∧ asStr (⟨.vstr "t1", .vstr "debit"⟩ : Recon.RItem).type = "debit" := by
  constructor
  · have h := (transfer_leg_tagging.1 Transactions.wTxPayload Ledgers.wMeta (.fin 100)).1
    rw [h]
    decide
  · exact (transfer_leg_tagging.2 [⟨.vstr "t1", .vstr "debit"⟩] "t1"
      ⟨some ⟨.vstr "t1", .vstr "debit"⟩, none⟩ (by decide)).1
      ⟨.vstr "t1", .vstr "debit"⟩ rfl

end JefWallets
